import Mathlib

/-!
# Almoviland page scripts

A shallow embedding of `web/resources/js/scripts.js` (and its build copy):
the two copy-count prompts, the drag-to-scroll listeners and the message fader,
together with the properties of them that the specification states.
-/

namespace Almoviland

/-! ## String to number coercion (ECMAScript `StringToNumber`) -/

/-- What `ToNumber` yields, before the final rounding to a double: NaN, an infinity,
or the mathematical value `(-1)^neg * mant * 10^exp10` of the literal. -/
inductive JSNumber where
  | nan
  | inf (neg : Bool)
  | mv (neg : Bool) (mant : Nat) (exp10 : Int)
  deriving DecidableEq, Repr

/-- Code points of `StrWhiteSpaceChar`: WhiteSpace (TAB, VT, FF, ZWNBSP and category Zs)
and LineTerminator (LF, CR, LS, PS). -/
def isStrWhiteSpaceChar (c : Char) : Bool :=
  let n := c.toNat
  n == 0x09 || n == 0x0A || n == 0x0B || n == 0x0C || n == 0x0D || n == 0x20 || n == 0xA0 ||
  n == 0x1680 || (0x2000 ≤ n && n ≤ 0x200A) || n == 0x2028 || n == 0x2029 || n == 0x202F ||
  n == 0x205F || n == 0x3000 || n == 0xFEFF

/-- Strips leading and trailing `StrWhiteSpaceChar`s. -/
def trimStrWhiteSpace (cs : List Char) : List Char :=
  ((cs.dropWhile isStrWhiteSpaceChar).reverse.dropWhile isStrWhiteSpaceChar).reverse

/-- Value of a digit in the given radix (2, 8, 10 or 16), if it is one. -/
def digitValue (radix : Nat) (c : Char) : Option Nat :=
  let n := c.toNat
  let v := if 48 ≤ n ∧ n ≤ 57 then n - 48
    else if 97 ≤ n ∧ n ≤ 102 then n - 87
    else if 65 ≤ n ∧ n ≤ 70 then n - 55
    else radix
  if v < radix then some v else none

/-- Whether the character is a digit of the given radix. -/
def isDigitIn (radix : Nat) (c : Char) : Bool :=
  (digitValue radix c).isSome

/-- Mathematical value of a run of digits in the given radix. -/
def digitsValue (radix : Nat) (ds : List Char) : Nat :=
  ds.foldl (fun acc c => radix * acc + (digitValue radix c).getD 0) 0

/-- The `ExponentPart_opt` that must reach the end of the literal: the exponent, or `none`
when what is left is not an exponent part. -/
def parseExponentPart (cs : List Char) : Option Int :=
  match cs with
  | [] => some 0
  | c :: rest =>
    if c = 'e' ∨ c = 'E' then
      let neg := rest.head? = some '-'
      let ds := if rest.head? = some '+' ∨ rest.head? = some '-' then rest.tail else rest
      if ds ≠ [] ∧ ds.all (isDigitIn 10) = true then
        some (if neg then -(digitsValue 10 ds : Int) else (digitsValue 10 ds : Int))
      else none
    else none

/-- The `StrUnsignedDecimalLiteral` (the sign already consumed). -/
def parseUnsignedDecimal (neg : Bool) (cs : List Char) : JSNumber :=
  if cs = "Infinity".toList then JSNumber.inf neg
  else
    let intDs := cs.takeWhile (isDigitIn 10)
    let r1 := cs.dropWhile (isDigitIn 10)
    let hasDot := r1.head? = some '.'
    let fracDs := if hasDot then r1.tail.takeWhile (isDigitIn 10) else []
    let r2 := if hasDot then r1.tail.dropWhile (isDigitIn 10) else r1
    if intDs = [] ∧ fracDs = [] then JSNumber.nan
    else
      match parseExponentPart r2 with
      | none => JSNumber.nan
      | some e => JSNumber.mv neg (digitsValue 10 (intDs ++ fracDs)) (e - fracDs.length)

/-- The `NonDecimalIntegerLiteral` (`0x`, `0o`, `0b`, either case, unsigned): `none` when the
literal carries no radix mark. -/
def parseNonDecimal (cs : List Char) : Option JSNumber :=
  match cs with
  | z :: p :: ds =>
    let radix : Nat :=
      if p = 'x' ∨ p = 'X' then 16
      else if p = 'o' ∨ p = 'O' then 8
      else if p = 'b' ∨ p = 'B' then 2
      else 0
    if z = '0' ∧ radix ≠ 0 then
      if ds ≠ [] ∧ ds.all (isDigitIn radix) = true then
        some (JSNumber.mv false (digitsValue radix ds) 0)
      else some JSNumber.nan
    else none
  | _ => none

/-- The operation `StringToNumber`: the empty or all-blank string is `+0`, a string outside the
`StringNumericLiteral` grammar is NaN. -/
def StringToNumber (s : String) : JSNumber :=
  let cs := trimStrWhiteSpace s.toList
  if cs = [] then JSNumber.mv false 0 0
  else
    match parseNonDecimal cs with
    | some r => r
    | none =>
      if cs.head? = some '+' then parseUnsignedDecimal false cs.tail
      else if cs.head? = some '-' then parseUnsignedDecimal true cs.tail
      else parseUnsignedDecimal false cs

/-- The operation `ToNumber` on what `prompt` returns: `null` is `+0`, a string goes through
`StringToNumber`. -/
def ToNumber (v : Option String) : JSNumber :=
  match v with
  | none => JSNumber.mv false 0 0
  | some s => StringToNumber s

/-- The global `isNaN(v)`. -/
def isNaN (v : Option String) : Bool :=
  ToNumber v = JSNumber.nan

/-- Whether `mant * 10^exp10` rounds (to nearest, ties to even) to a double above zero:
exactly when it exceeds `2^(-1075)`, half the least subnormal. -/
def roundsAboveZero (mant : Nat) (exp10 : Int) : Bool :=
  match exp10 with
  | Int.ofNat _ => decide (0 < mant)
  | Int.negSucc k => decide (10 ^ (k + 1) < mant * 2 ^ 1075)

/-- The comparison `v > 0` after `ToNumber`: false on NaN. -/
def gtZero (v : Option String) : Bool :=
  match ToNumber v with
  | JSNumber.nan => false
  | JSNumber.inf neg => !neg
  | JSNumber.mv neg mant exp10 => !neg && roundsAboveZero mant exp10

/-! ## The copy-count prompts -/

/-- What a prompt call does to the page and the user, in program order. -/
inductive Effect where
  | prompt (message defaultText : String)
  | setValue (id value : String)
  | click (id : String)
  | alert (message : String)
  deriving DecidableEq, Repr

/-- An input element, as far as the script touches it. -/
structure Element where
  value : String
  deriving DecidableEq, Repr

/-- The document as `getElementById` sees it: `none` is the `null` of a missing id. -/
abbrev Page := String → Option Element

/-- Result of one call: the page afterwards, what the call did in order, and whether a
`TypeError` (property access on `null`) ended it. -/
structure Outcome where
  page : Page
  effects : List Effect
  threw : Bool

/-- The assignment `el.value = v` on the element with the given id. -/
def Page.setValue (p : Page) (id v : String) : Page :=
  Function.update p id (some ⟨v⟩)

/-- Body of `addCopiesPrompt`; `answer` is what `prompt` returns (`none` is `null`). -/
def addCopiesPrompt (answer : Option String) (p : Page) : Outcome :=
  let asked := [Effect.prompt "Enter the number of copies added to inventory:" "1"]
  let copies := answer
  if copies ≠ none ∧ !isNaN copies ∧ gtZero copies then
    match p "manageMovieForm:addCopiesInput" with
    | none => ⟨p, asked, true⟩
    | some _ =>
      let p1 := p.setValue "manageMovieForm:addCopiesInput" (copies.getD "")
      let wrote := asked ++ [Effect.setValue "manageMovieForm:addCopiesInput" (copies.getD "")]
      match p1 "manageMovieForm:addCopiesBtn" with
      | none => ⟨p1, wrote, true⟩
      | some _ => ⟨p1, wrote ++ [Effect.click "manageMovieForm:addCopiesBtn"], false⟩
  else
    ⟨p, asked ++ [Effect.alert "Invalid input. Please enter a positive number."], false⟩

/-- Body of `lostCopiesPrompt`; `answer` is what `prompt` returns (`none` is `null`). -/
def lostCopiesPrompt (answer : Option String) (p : Page) : Outcome :=
  let asked := [Effect.prompt "Enter number of lost copies (by company):" "1"]
  let lost := answer
  if lost ≠ none ∧ !isNaN lost ∧ gtZero lost then
    match p "manageMovieForm:lostCopiesInput" with
    | none => ⟨p, asked, true⟩
    | some _ =>
      let p1 := p.setValue "manageMovieForm:lostCopiesInput" (lost.getD "")
      let wrote := asked ++ [Effect.setValue "manageMovieForm:lostCopiesInput" (lost.getD "")]
      match p1 "manageMovieForm:lostCopiesBtn" with
      | none => ⟨p1, wrote, true⟩
      | some _ => ⟨p1, wrote ++ [Effect.click "manageMovieForm:lostCopiesBtn"], false⟩
  else
    ⟨p, asked ++ [Effect.alert "Invalid input. Please enter a positive number."], false⟩

/-- The values the call assigned to the field with the given id, in order. -/
def Outcome.writes (o : Outcome) (id : String) : List String :=
  o.effects.filterMap fun e => match e with
    | Effect.setValue i v => if i = id then some v else none
    | _ => none

/-- Whether the call assigned a value to any field. -/
def Outcome.wroteAny (o : Outcome) : Bool :=
  o.effects.any fun e => match e with
    | Effect.setValue _ _ => true
    | _ => false

/-- Number of clicks the call dispatched on the element with the given id. -/
def Outcome.clicks (o : Outcome) (id : String) : Nat :=
  o.effects.count (Effect.click id)

/-- Whether the call dispatched a click on any element. -/
def Outcome.clickedAny (o : Outcome) : Bool :=
  o.effects.any fun e => match e with
    | Effect.click _ => true
    | _ => false

/-- Number of alerts the call showed. -/
def Outcome.alerts (o : Outcome) : Nat :=
  o.effects.countP fun e => match e with
    | Effect.alert _ => true
    | _ => false

/-- The input is accepted by the call: the field is written and the button is clicked. -/
def Outcome.accepted (o : Outcome) (inputId buttonId : String) : Bool :=
  !(o.writes inputId).isEmpty && decide (0 < o.clicks buttonId)

/-- A page holding the four elements of `manageMovieForm` the prompts use, each input
empty. -/
def manageMovieForm : Page := fun id =>
  if id = "manageMovieForm:addCopiesInput" ∨ id = "manageMovieForm:addCopiesBtn" ∨
      id = "manageMovieForm:lostCopiesInput" ∨ id = "manageMovieForm:lostCopiesBtn" then
    some ⟨""⟩
  else none

/-! ## Drag to scroll -/

/-- A JavaScript number of the drag arithmetic, an IEEE 754 binary64 value: NaN (which is
also what `undefined` reads as in arithmetic), an infinity, or a finite double, held as its
integer count of units of `2^(-1074)`, the least positive double (so 1 is `2^1074` units).
The two zeros are one value. -/
inductive Num where
  | nan
  | inf (neg : Bool)
  | fin (units : Int)
  deriving DecidableEq, Repr

/-- Number of binary digits of `a` within `fuel` halvings. -/
def bitLengthAux (fuel a : Nat) : Nat :=
  match fuel with
  | 0 => 0
  | f + 1 => if a = 0 then 0 else bitLengthAux f (a / 2) + 1

/-- Number of binary digits of `a`, 0 for 0. -/
def bitLength (a : Nat) : Nat :=
  bitLengthAux a a

/-- Rounding to binary64, to nearest with ties to even, of the number of magnitude
`a / 2^s` units and sign `neg`: all but the leading 53 binary digits of `a`, and at least
the `s` digits below one unit, are rounded off; a result of `2^1024` (`2^2098` units) or more
is an infinity. -/
def Num.round (neg : Bool) (a s : Nat) : Num :=
  let drop := max s (bitLength a - 53)
  let q := a / 2 ^ drop
  let r := a % 2 ^ drop
  let up := decide (2 ^ drop < 2 * r) || (decide (2 * r = 2 ^ drop) && decide (q % 2 = 1))
  let units := (if up then q + 1 else q) * 2 ^ (drop - s)
  if 2 ^ 2098 ≤ units then Num.inf neg
  else Num.fin (if neg then -(units : Int) else (units : Int))

/-- The operator `-` on numbers. -/
def Num.sub (a b : Num) : Num :=
  match a, b with
  | Num.nan, _ => Num.nan
  | _, Num.nan => Num.nan
  | Num.inf s, Num.inf t => if s = t then Num.nan else Num.inf s
  | Num.inf s, Num.fin _ => Num.inf s
  | Num.fin _, Num.inf t => Num.inf (!t)
  | Num.fin x, Num.fin y => Num.round (decide (x - y < 0)) (x - y).natAbs 0

/-- The operator `*` on numbers. -/
def Num.mul (a b : Num) : Num :=
  match a, b with
  | Num.nan, _ => Num.nan
  | _, Num.nan => Num.nan
  | Num.inf s, Num.inf t => Num.inf (s != t)
  | Num.inf s, Num.fin y => if y = 0 then Num.nan else Num.inf (s != decide (y < 0))
  | Num.fin x, Num.inf t => if x = 0 then Num.nan else Num.inf (decide (x < 0) != t)
  | Num.fin x, Num.fin y =>
    Num.round (decide (x < 0) != decide (y < 0)) (x.natAbs * y.natAbs) 1074

/-- The number `n / 2^g`, a double when `n` has at most 53 binary digits and `g ≤ 1074`;
`Num.dyadic n 0` is the integer `n`, `Num.dyadic 3 1` is 1.5. -/
def Num.dyadic (n : Int) (g : Nat) : Num :=
  Num.fin (n * ((2 ^ (1074 - g) : Nat) : Int))

/-- The value of a finite number as a rational. -/
def Num.toRat (a : Num) : Option ℚ :=
  match a with
  | Num.fin units => some ((units : ℚ) / 2 ^ 1074)
  | _ => none

/-- The call `classList.add(token)`: the token joins the set unless it is there already. -/
def classListAdd (classList : List String) (token : String) : List String :=
  if token ∈ classList then classList else classList ++ [token]

/-- The call `classList.remove(token)`. -/
def classListRemove (classList : List String) (token : String) : List String :=
  classList.filter fun t => t ≠ token

/-- The properties of a `.scroll-container` element the listeners read or assign. The
value of `scrollLeft` is the one last assigned by the script or, before that, the one the
element came with; what the layout engine makes of an assigned value is not the
script. -/
structure Container where
  offsetLeft : Num
  scrollLeft : Num
  classList : List String
  deriving DecidableEq, Repr

/-- One container with the three variables its listeners close over: `isDown`, `startX`
and `scrollLeft` (named `savedScrollLeft` here, apart from the property). -/
structure DragScroll where
  isDown : Bool
  startX : Num
  savedScrollLeft : Num
  container : Container
  deriving DecidableEq, Repr

/-- The `forEach` callback up to the listener registrations: `isDown = false`, the other two
variables still `undefined`. -/
def DragScroll.init (container : Container) : DragScroll :=
  ⟨false, Num.nan, Num.nan, container⟩

/-- The four mouse events listened for; `pageX` is the pointer position of the event. -/
inductive MouseEvent where
  | mousedown (pageX : Num)
  | mouseleave
  | mouseup
  | mousemove (pageX : Num)
  deriving DecidableEq, Repr

/-- The `mousedown` listener. -/
def onMouseDown (pageX : Num) (d : DragScroll) : DragScroll :=
  let classList := classListAdd d.container.classList "active"
  { isDown := true
    startX := Num.sub pageX d.container.offsetLeft
    savedScrollLeft := d.container.scrollLeft
    container := { d.container with classList := classList } }

/-- The `mouseleave` listener. -/
def onMouseLeave (d : DragScroll) : DragScroll :=
  { d with
    isDown := false
    container := { d.container with classList := classListRemove d.container.classList "active" } }

/-- The `mouseup` listener. -/
def onMouseUp (d : DragScroll) : DragScroll :=
  { d with
    isDown := false
    container := { d.container with classList := classListRemove d.container.classList "active" } }

/-- The `mousemove` listener; the flag tells whether `e.preventDefault()` was called. -/
def onMouseMove (pageX : Num) (d : DragScroll) : DragScroll × Bool :=
  if !d.isDown then (d, false)
  else
    let x := Num.sub pageX d.container.offsetLeft
    let walk := Num.mul (Num.sub x d.startX) (Num.dyadic 3 1)
    ({ d with container := { d.container with scrollLeft := Num.sub d.savedScrollLeft walk } },
      true)

/-- Delivery of one event to the listener registered for it. -/
def dispatch (e : MouseEvent) (d : DragScroll) : DragScroll × Bool :=
  match e with
  | MouseEvent.mousedown pageX => (onMouseDown pageX d, false)
  | MouseEvent.mouseleave => (onMouseLeave d, false)
  | MouseEvent.mouseup => (onMouseUp d, false)
  | MouseEvent.mousemove pageX => onMouseMove pageX d

/-- Delivery of a sequence of events, first to last. -/
def deliver (es : List MouseEvent) (d : DragScroll) : DragScroll :=
  es.foldl (fun d e => (dispatch e d).1) d

/-- Whether the event is a `mousemove`. -/
def MouseEvent.isMove (e : MouseEvent) : Bool :=
  match e with
  | MouseEvent.mousemove _ => true
  | _ => false

/-- The state of the specification, read off the events alone: Idle when there was no
`mousedown` yet or the most recent of `mousedown`, `mouseup`, `mouseleave` is not a
`mousedown`. -/
def idleAfter (es : List MouseEvent) : Bool :=
  match es.reverse.find? fun e => !e.isMove with
  | some (MouseEvent.mousedown _) => false
  | _ => true

/-! ## Message fader -/

/-- Elements are named by a number. -/
abbrev NodeId := Nat

/-- The properties of an element the fader reads or assigns; `fading` is
`dataset.fading`, `none` when undefined. -/
structure Node where
  parentNode : Option NodeId
  children : List NodeId
  fading : Option String
  transition : String
  opacity : String
  deriving DecidableEq, Repr

/-- The two callbacks handed to `setTimeout`, each closing over its `msg`. -/
inductive Task where
  | fade (msg : NodeId)
  | remove (msg : NodeId)
  deriving DecidableEq, Repr

/-- A pending timer: the time it is due (in ms) and its callback. -/
structure Timer where
  due : Nat
  task : Task
  deriving DecidableEq, Repr

/-- The page with a virtual clock: the time in ms, the elements, and the pending timers
in the order of their `setTimeout` calls. -/
structure World where
  now : Nat
  nodes : NodeId → Node
  timers : List Timer

/-- The call `setTimeout(task, delay)`. -/
def setTimeout (task : Task) (delay : Nat) (w : World) : World :=
  { w with timers := w.timers ++ [⟨w.now + delay, task⟩] }

/-- Truthiness of a string or `undefined`: only `undefined` and the empty string are
falsy. -/
def isTruthy (v : Option String) : Bool :=
  match v with
  | none => false
  | some s => s ≠ ""

/-- What a successful `removeChild` changes: `child` leaves the children of `parent` and
has no parent afterwards. -/
def detach (parent child : NodeId) (w : World) : World :=
  let nodes1 := Function.update w.nodes parent
    { w.nodes parent with children := (w.nodes parent).children.filter fun c => c ≠ child }
  { w with nodes := Function.update nodes1 child { nodes1 child with parentNode := none } }

/-- The call `parent.removeChild(child)` of the DOM: a `NotFoundError` unless `parent` is the
parent of `child`. -/
def removeChild (parent child : NodeId) (w : World) : Except String World :=
  if (w.nodes child).parentNode ≠ some parent then Except.error "NotFoundError"
  else Except.ok (detach parent child w)

/-- The inner timer callback of `fadeOutElement`: the removal step. -/
def removalStep (msg : NodeId) (w : World) : Except String World :=
  match (w.nodes msg).parentNode with
  | some parent => removeChild parent msg w
  | none => Except.ok w

/-- The outer timer callback of `fadeOutElement`: the fade step. -/
def fadeStep (msg : NodeId) (w : World) : Except String World :=
  let nodes1 := Function.update w.nodes msg { w.nodes msg with transition := "opacity 0.5s ease" }
  let nodes2 := Function.update nodes1 msg { nodes1 msg with opacity := "0" }
  Except.ok (setTimeout (Task.remove msg) 500 { w with nodes := nodes2 })

/-- Runs a timer callback. -/
def runTask (task : Task) (w : World) : Except String World :=
  match task with
  | Task.fade msg => fadeStep msg w
  | Task.remove msg => removalStep msg w

/-- Body of `fadeOutElement`; `none` is a missing (`null` or `undefined`) argument. -/
def fadeOutElement (msg : Option NodeId) (w : World) : Except String World :=
  match msg with
  | none => Except.ok w
  | some m =>
    if !isTruthy (w.nodes m).fading then
      let w1 := { w with nodes := Function.update w.nodes m { w.nodes m with fading := some "true" } }
      Except.ok (setTimeout (Task.fade m) 3000 w1)
    else Except.ok w

/-- Body of `scanAndFadeMessages`; `messages` is the list `querySelectorAll` returns for
the four message selectors at the time of the call. -/
def scanAndFadeMessages (messages : List NodeId) (w : World) : Except String World :=
  messages.foldlM (fun w m => fadeOutElement (some m) w) w

/-- The event loop running the callback of a due timer: an exception of the callback is
reported and the loop goes on. -/
def fire (w : World) (t : Timer) : World :=
  match runTask t.task w with
  | Except.ok w1 => w1
  | Except.error _ => w

/-- The timers that are due once the clock has moved on by a millisecond, in the order
they were set. -/
def dueTimers (w : World) : List Timer :=
  w.timers.filter fun t => t.due ≤ w.now + 1

/-- The clock moved on by a millisecond, the due timers taken off the pending list. -/
def startTick (w : World) : World :=
  { w with
    now := w.now + 1
    timers := w.timers.filter fun t => ¬ t.due ≤ w.now + 1 }

/-- One millisecond of the event loop: the clock moves on, then the timers that are due run
in the order they were set. -/
def tick (w : World) : World :=
  (dueTimers w).foldl fire (startTick w)

/-- What happens on the page between two looks at it: a call of `fadeOutElement`, a run
of `scanAndFadeMessages`, or a millisecond passing. -/
inductive PageStep where
  | call (msg : Option NodeId)
  | scan (messages : List NodeId)
  | wait
  deriving DecidableEq, Repr

/-- Performs one step; were a call to end with an exception, the world is taken as it was
before the call. -/
def PageStep.perform (s : PageStep) (w : World) : World :=
  match s with
  | PageStep.call msg => match fadeOutElement msg w with
    | Except.ok w1 => w1
    | Except.error _ => w
  | PageStep.scan messages => match scanAndFadeMessages messages w with
    | Except.ok w1 => w1
    | Except.error _ => w
  | PageStep.wait => tick w

/-- Performs the steps first to last. -/
def performAll (steps : List PageStep) (w : World) : World :=
  steps.foldl (fun w s => s.perform w) w

/-- Number of milliseconds that pass during the steps. -/
def waits (steps : List PageStep) : Nat :=
  steps.count PageStep.wait

/-- The element a timer callback works on. -/
def Task.target (task : Task) : NodeId :=
  match task with
  | Task.fade msg => msg
  | Task.remove msg => msg

/-- The pending timers whose callback works on the element `m`, in the order they were
set. -/
def timersOn (m : NodeId) (w : World) : List Timer :=
  w.timers.filter fun t => t.task.target = m

/-- The world `w1` looks to the element `m` as `w` does: `m` has the same parent, mark and
style, and the same timers are pending on it. -/
structure SameFor (m : NodeId) (w w1 : World) : Prop where
  parentNode : (w1.nodes m).parentNode = (w.nodes m).parentNode
  fading : (w1.nodes m).fading = (w.nodes m).fading
  transition : (w1.nodes m).transition = (w.nodes m).transition
  opacity : (w1.nodes m).opacity = (w.nodes m).opacity
  timers : timersOn m w1 = timersOn m w

/-- Every pending timer works on a marked element. -/
def timersMarked (w : World) : Prop :=
  ∀ t ∈ w.timers, isTruthy (w.nodes t.task.target).fading = true

/-- A fresh element: no parent given, unmarked, default style. -/
def Node.blank : Node := ⟨none, [], none, "", ""⟩

/-- A sample page at time 0: element 0 is a list holding the message elements 1 and 2,
nothing is pending. -/
def samplePage : World :=
  { now := 0
    nodes := fun n =>
      if n = 0 then { Node.blank with children := [1, 2] }
      else if n = 1 ∨ n = 2 then { Node.blank with parentNode := some 0 }
      else Node.blank
    timers := [] }

/-! ## Theorems: the copy-count prompts -/

theorem addCopiesPrompt_valid (s : String) (p : Page) (e1 e2 : Element)
    (hn : isNaN (some s) = false) (hg : gtZero (some s) = true)
    (hi : p "manageMovieForm:addCopiesInput" = some e1)
    (hb : p "manageMovieForm:addCopiesBtn" = some e2) :
    addCopiesPrompt (some s) p =
      ⟨p.setValue "manageMovieForm:addCopiesInput" s,
        [Effect.prompt "Enter the number of copies added to inventory:" "1",
          Effect.setValue "manageMovieForm:addCopiesInput" s,
          Effect.click "manageMovieForm:addCopiesBtn"], false⟩ := by
  have hne : "manageMovieForm:addCopiesBtn" ≠ "manageMovieForm:addCopiesInput" := by decide
  have hc : (some s ≠ none ∧ (!isNaN (some s)) = true ∧ gtZero (some s) = true) :=
    ⟨by simp, by simp [hn], hg⟩
  simp only [addCopiesPrompt, if_pos hc, hi, Page.setValue, Function.update_noteq hne, hb,
    Option.getD_some, List.cons_append, List.nil_append]

theorem addCopiesPrompt_invalid (v : Option String) (p : Page)
    (hv : ¬ (v ≠ none ∧ isNaN v = false ∧ gtZero v = true)) :
    addCopiesPrompt v p =
      ⟨p, [Effect.prompt "Enter the number of copies added to inventory:" "1",
        Effect.alert "Invalid input. Please enter a positive number."], false⟩ := by
  have hc : ¬ (v ≠ none ∧ (!isNaN v) = true ∧ gtZero v = true) := by
    intro h
    exact hv ⟨h.1, by simpa using h.2.1, h.2.2⟩
  simp only [addCopiesPrompt, if_neg hc, List.cons_append, List.nil_append]

theorem lostCopiesPrompt_valid (s : String) (p : Page) (e1 e2 : Element)
    (hn : isNaN (some s) = false) (hg : gtZero (some s) = true)
    (hi : p "manageMovieForm:lostCopiesInput" = some e1)
    (hb : p "manageMovieForm:lostCopiesBtn" = some e2) :
    lostCopiesPrompt (some s) p =
      ⟨p.setValue "manageMovieForm:lostCopiesInput" s,
        [Effect.prompt "Enter number of lost copies (by company):" "1",
          Effect.setValue "manageMovieForm:lostCopiesInput" s,
          Effect.click "manageMovieForm:lostCopiesBtn"], false⟩ := by
  have hne : "manageMovieForm:lostCopiesBtn" ≠ "manageMovieForm:lostCopiesInput" := by decide
  have hc : (some s ≠ none ∧ (!isNaN (some s)) = true ∧ gtZero (some s) = true) :=
    ⟨by simp, by simp [hn], hg⟩
  simp only [lostCopiesPrompt, if_pos hc, hi, Page.setValue, Function.update_noteq hne, hb,
    Option.getD_some, List.cons_append, List.nil_append]

theorem lostCopiesPrompt_invalid (v : Option String) (p : Page)
    (hv : ¬ (v ≠ none ∧ isNaN v = false ∧ gtZero v = true)) :
    lostCopiesPrompt v p =
      ⟨p, [Effect.prompt "Enter number of lost copies (by company):" "1",
        Effect.alert "Invalid input. Please enter a positive number."], false⟩ := by
  have hc : ¬ (v ≠ none ∧ (!isNaN v) = true ∧ gtZero v = true) := by
    intro h
    exact hv ⟨h.1, by simpa using h.2.1, h.2.2⟩
  simp only [lostCopiesPrompt, if_neg hc, List.cons_append, List.nil_append]

/-- On a page that holds its input and its button, `addCopiesPrompt` accepts exactly the
prompt results that pass the test. -/
theorem addCopiesPrompt_accepted_iff (v : Option String) (p : Page)
    (hi : (p "manageMovieForm:addCopiesInput").isSome = true)
    (hb : (p "manageMovieForm:addCopiesBtn").isSome = true) :
    (addCopiesPrompt v p).accepted "manageMovieForm:addCopiesInput"
        "manageMovieForm:addCopiesBtn" = true ↔
      (v ≠ none ∧ isNaN v = false ∧ gtZero v = true) := by
  obtain ⟨e1, he1⟩ := Option.isSome_iff_exists.mp hi
  obtain ⟨e2, he2⟩ := Option.isSome_iff_exists.mp hb
  by_cases hv : v ≠ none ∧ isNaN v = false ∧ gtZero v = true
  · obtain ⟨s, rfl⟩ := Option.ne_none_iff_exists'.mp hv.1
    rw [addCopiesPrompt_valid s p e1 e2 hv.2.1 hv.2.2 he1 he2]
    simp [Outcome.accepted, Outcome.writes, Outcome.clicks, hv]
  · rw [addCopiesPrompt_invalid v p hv]
    simp [Outcome.accepted, Outcome.writes, Outcome.clicks, hv]

/-- On a page that holds its input and its button, `lostCopiesPrompt` accepts exactly the
prompt results that pass the test. -/
theorem lostCopiesPrompt_accepted_iff (v : Option String) (p : Page)
    (hi : (p "manageMovieForm:lostCopiesInput").isSome = true)
    (hb : (p "manageMovieForm:lostCopiesBtn").isSome = true) :
    (lostCopiesPrompt v p).accepted "manageMovieForm:lostCopiesInput"
        "manageMovieForm:lostCopiesBtn" = true ↔
      (v ≠ none ∧ isNaN v = false ∧ gtZero v = true) := by
  obtain ⟨e1, he1⟩ := Option.isSome_iff_exists.mp hi
  obtain ⟨e2, he2⟩ := Option.isSome_iff_exists.mp hb
  by_cases hv : v ≠ none ∧ isNaN v = false ∧ gtZero v = true
  · obtain ⟨s, rfl⟩ := Option.ne_none_iff_exists'.mp hv.1
    rw [lostCopiesPrompt_valid s p e1 e2 hv.2.1 hv.2.2 he1 he2]
    simp [Outcome.accepted, Outcome.writes, Outcome.clicks, hv]
  · rw [lostCopiesPrompt_invalid v p hv]
    simp [Outcome.accepted, Outcome.writes, Outcome.clicks, hv]

theorem addCopiesPrompt_alerts (v : Option String) (p : Page) :
    (addCopiesPrompt v p).alerts =
      if v ≠ none ∧ isNaN v = false ∧ gtZero v = true then 0 else 1 := by
  by_cases hv : v ≠ none ∧ isNaN v = false ∧ gtZero v = true
  · have hc : (v ≠ none ∧ (!isNaN v) = true ∧ gtZero v = true) :=
      ⟨hv.1, by simp [hv.2.1], hv.2.2⟩
    rw [if_pos hv]
    simp only [addCopiesPrompt, if_pos hc]
    cases p "manageMovieForm:addCopiesInput" with
    | none => simp [Outcome.alerts]
    | some e1 =>
      simp only []
      cases Page.setValue p "manageMovieForm:addCopiesInput" (v.getD "")
          "manageMovieForm:addCopiesBtn" with
      | none => simp [Outcome.alerts]
      | some e2 => simp [Outcome.alerts]
  · rw [if_neg hv, addCopiesPrompt_invalid v p hv]
    simp [Outcome.alerts]

theorem lostCopiesPrompt_alerts (v : Option String) (p : Page) :
    (lostCopiesPrompt v p).alerts =
      if v ≠ none ∧ isNaN v = false ∧ gtZero v = true then 0 else 1 := by
  by_cases hv : v ≠ none ∧ isNaN v = false ∧ gtZero v = true
  · have hc : (v ≠ none ∧ (!isNaN v) = true ∧ gtZero v = true) :=
      ⟨hv.1, by simp [hv.2.1], hv.2.2⟩
    rw [if_pos hv]
    simp only [lostCopiesPrompt, if_pos hc]
    cases p "manageMovieForm:lostCopiesInput" with
    | none => simp [Outcome.alerts]
    | some e1 =>
      simp only []
      cases Page.setValue p "manageMovieForm:lostCopiesInput" (v.getD "")
          "manageMovieForm:lostCopiesBtn" with
      | none => simp [Outcome.alerts]
      | some e2 => simp [Outcome.alerts]
  · rw [if_neg hv, lostCopiesPrompt_invalid v p hv]
    simp [Outcome.alerts]

theorem null_not_valid : ¬ ((none : Option String) ≠ none ∧ isNaN none = false ∧ gtZero none = true) :=
  fun h => h.1 rfl

/-- C1: on a page that holds the four form elements, `addCopiesPrompt` and
`lostCopiesPrompt` each accept a prompt result (write the field and click the button) if
and only if it is non-null, `isNaN` of it is false and it coerces to a number above zero;
both accept the same results; "3" is accepted and "0", "-2", "abc", the empty string and
null are rejected. -/
theorem prompt_accepts_iff_valid (p : Page)
    (hai : (p "manageMovieForm:addCopiesInput").isSome = true)
    (hab : (p "manageMovieForm:addCopiesBtn").isSome = true)
    (hli : (p "manageMovieForm:lostCopiesInput").isSome = true)
    (hlb : (p "manageMovieForm:lostCopiesBtn").isSome = true) :
    (∀ v : Option String,
      ((addCopiesPrompt v p).accepted "manageMovieForm:addCopiesInput"
          "manageMovieForm:addCopiesBtn" = true ↔
        (v ≠ none ∧ isNaN v = false ∧ gtZero v = true)) ∧
      ((lostCopiesPrompt v p).accepted "manageMovieForm:lostCopiesInput"
          "manageMovieForm:lostCopiesBtn" = true ↔
        (v ≠ none ∧ isNaN v = false ∧ gtZero v = true)) ∧
      (addCopiesPrompt v p).accepted "manageMovieForm:addCopiesInput"
          "manageMovieForm:addCopiesBtn" =
        (lostCopiesPrompt v p).accepted "manageMovieForm:lostCopiesInput"
          "manageMovieForm:lostCopiesBtn") ∧
    (addCopiesPrompt (some "3") p).accepted "manageMovieForm:addCopiesInput"
      "manageMovieForm:addCopiesBtn" = true ∧
    (lostCopiesPrompt (some "3") p).accepted "manageMovieForm:lostCopiesInput"
      "manageMovieForm:lostCopiesBtn" = true ∧
    (∀ v ∈ [some "0", some "-2", some "abc", some "", none],
      (addCopiesPrompt v p).accepted "manageMovieForm:addCopiesInput"
        "manageMovieForm:addCopiesBtn" = false ∧
      (lostCopiesPrompt v p).accepted "manageMovieForm:lostCopiesInput"
        "manageMovieForm:lostCopiesBtn" = false) := by
  have hadd := fun v => addCopiesPrompt_accepted_iff v p hai hab
  have hlost := fun v => lostCopiesPrompt_accepted_iff v p hli hlb
  have hno : ∀ v, ¬ (v ≠ none ∧ isNaN v = false ∧ gtZero v = true) →
      (addCopiesPrompt v p).accepted "manageMovieForm:addCopiesInput"
        "manageMovieForm:addCopiesBtn" = false ∧
      (lostCopiesPrompt v p).accepted "manageMovieForm:lostCopiesInput"
        "manageMovieForm:lostCopiesBtn" = false := by
    intro v hv
    exact ⟨Bool.eq_false_iff.mpr fun h => hv ((hadd v).mp h),
      Bool.eq_false_iff.mpr fun h => hv ((hlost v).mp h)⟩
  refine ⟨fun v => ⟨hadd v, hlost v, ?_⟩, ?_, ?_, ?_⟩
  · rw [Bool.eq_iff_iff, hadd v, hlost v]
  · exact (hadd (some "3")).mpr (by decide)
  · exact (hlost (some "3")).mpr (by decide)
  · intro v hv
    simp only [List.mem_cons, List.mem_singleton, List.not_mem_nil, or_false] at hv
    rcases hv with rfl | rfl | rfl | rfl | rfl <;> exact hno _ (by decide)

/-- Witness of C1 on the sample form page. -/
theorem prompt_accepts_iff_valid_witness :
    (addCopiesPrompt (some "3") manageMovieForm).accepted "manageMovieForm:addCopiesInput"
      "manageMovieForm:addCopiesBtn" = true ∧
    (lostCopiesPrompt (some "3") manageMovieForm).accepted "manageMovieForm:lostCopiesInput"
      "manageMovieForm:lostCopiesBtn" = true :=
  let h := prompt_accepts_iff_valid manageMovieForm (by decide) (by decide) (by decide) (by decide)
  ⟨h.2.1, h.2.2.1⟩

/-- C2: for every accepted prompt result `s`, on a page that holds the four form elements,
`addCopiesPrompt` leaves `manageMovieForm:addCopiesInput` with exactly the raw string `s` as
its value and does, in this order, the write of `s` and one click on
`manageMovieForm:addCopiesBtn`, with no alert and no exception; `lostCopiesPrompt` does the
same with `manageMovieForm:lostCopiesInput` and `manageMovieForm:lostCopiesBtn`. -/
theorem accepted_writes_raw_then_clicks_once (s : String) (p : Page)
    (hn : isNaN (some s) = false) (hg : gtZero (some s) = true)
    (hai : (p "manageMovieForm:addCopiesInput").isSome = true)
    (hab : (p "manageMovieForm:addCopiesBtn").isSome = true)
    (hli : (p "manageMovieForm:lostCopiesInput").isSome = true)
    (hlb : (p "manageMovieForm:lostCopiesBtn").isSome = true) :
    ((addCopiesPrompt (some s) p).page "manageMovieForm:addCopiesInput" = some ⟨s⟩ ∧
      (addCopiesPrompt (some s) p).effects =
        [Effect.prompt "Enter the number of copies added to inventory:" "1",
          Effect.setValue "manageMovieForm:addCopiesInput" s,
          Effect.click "manageMovieForm:addCopiesBtn"] ∧
      (addCopiesPrompt (some s) p).clicks "manageMovieForm:addCopiesBtn" = 1 ∧
      (addCopiesPrompt (some s) p).alerts = 0 ∧
      (addCopiesPrompt (some s) p).threw = false) ∧
    ((lostCopiesPrompt (some s) p).page "manageMovieForm:lostCopiesInput" = some ⟨s⟩ ∧
      (lostCopiesPrompt (some s) p).effects =
        [Effect.prompt "Enter number of lost copies (by company):" "1",
          Effect.setValue "manageMovieForm:lostCopiesInput" s,
          Effect.click "manageMovieForm:lostCopiesBtn"] ∧
      (lostCopiesPrompt (some s) p).clicks "manageMovieForm:lostCopiesBtn" = 1 ∧
      (lostCopiesPrompt (some s) p).alerts = 0 ∧
      (lostCopiesPrompt (some s) p).threw = false) := by
  obtain ⟨a1, ha1⟩ := Option.isSome_iff_exists.mp hai
  obtain ⟨a2, ha2⟩ := Option.isSome_iff_exists.mp hab
  obtain ⟨l1, hl1⟩ := Option.isSome_iff_exists.mp hli
  obtain ⟨l2, hl2⟩ := Option.isSome_iff_exists.mp hlb
  rw [addCopiesPrompt_valid s p a1 a2 hn hg ha1 ha2,
    lostCopiesPrompt_valid s p l1 l2 hn hg hl1 hl2]
  simp [Page.setValue, Outcome.clicks, Outcome.alerts]

/-- Witness of C2: the answer "5" on the sample form page. -/
theorem accepted_writes_raw_then_clicks_once_witness :
    (addCopiesPrompt (some "5") manageMovieForm).page "manageMovieForm:addCopiesInput" =
      some ⟨"5"⟩ ∧
    (addCopiesPrompt (some "5") manageMovieForm).clicks "manageMovieForm:addCopiesBtn" = 1 ∧
    (addCopiesPrompt (some "5") manageMovieForm).alerts = 0 :=
  let h := accepted_writes_raw_then_clicks_once "5" manageMovieForm (by decide) (by decide)
    (by decide) (by decide) (by decide) (by decide)
  ⟨h.1.1, h.1.2.2.1, h.1.2.2.2.1⟩

/-- C3: for every non-null prompt result `s` that fails the test, `addCopiesPrompt` and
`lostCopiesPrompt` leave the page as it was (so both input values are unchanged), write no
field, click neither button and show exactly one alert. -/
theorem rejected_alerts_once_and_changes_nothing (s : String) (p : Page)
    (hv : ¬ (isNaN (some s) = false ∧ gtZero (some s) = true)) :
    ((addCopiesPrompt (some s) p).page = p ∧
      (addCopiesPrompt (some s) p).wroteAny = false ∧
      (addCopiesPrompt (some s) p).clicks "manageMovieForm:addCopiesBtn" = 0 ∧
      (addCopiesPrompt (some s) p).clicks "manageMovieForm:lostCopiesBtn" = 0 ∧
      (addCopiesPrompt (some s) p).alerts = 1) ∧
    ((lostCopiesPrompt (some s) p).page = p ∧
      (lostCopiesPrompt (some s) p).wroteAny = false ∧
      (lostCopiesPrompt (some s) p).clicks "manageMovieForm:addCopiesBtn" = 0 ∧
      (lostCopiesPrompt (some s) p).clicks "manageMovieForm:lostCopiesBtn" = 0 ∧
      (lostCopiesPrompt (some s) p).alerts = 1) := by
  have h : ¬ (some s ≠ none ∧ isNaN (some s) = false ∧ gtZero (some s) = true) :=
    fun h => hv h.2
  rw [addCopiesPrompt_invalid _ p h, lostCopiesPrompt_invalid _ p h]
  simp [Outcome.wroteAny, Outcome.clicks, Outcome.alerts]

/-- Witness of C3: the answer "-1" on the sample form page. -/
theorem rejected_alerts_once_and_changes_nothing_witness :
    (addCopiesPrompt (some "-1") manageMovieForm).page = manageMovieForm ∧
    (addCopiesPrompt (some "-1") manageMovieForm).alerts = 1 ∧
    (lostCopiesPrompt (some "-1") manageMovieForm).page = manageMovieForm ∧
    (lostCopiesPrompt (some "-1") manageMovieForm).alerts = 1 :=
  let h := rejected_alerts_once_and_changes_nothing "-1" manageMovieForm (by decide)
  ⟨h.1.1, h.1.2.2.2.2, h.2.1, h.2.2.2.2.2⟩

/-- C4, as stated, fails: on cancel (a `null` prompt result) each prompt shows an alert. -/
theorem cancel_shows_alert :
    ¬ ((addCopiesPrompt none manageMovieForm).alerts = 0) ∧
    ¬ ((lostCopiesPrompt none manageMovieForm).alerts = 0) := by
  decide

/-- C4, amended: on cancel (a `null` prompt result) `addCopiesPrompt` and `lostCopiesPrompt`
leave the page as it was, write no field, click nothing and show exactly one alert; and for
every prompt result an alert is shown exactly when the result is null or fails the test
(never more than one). -/
theorem cancel_alerts_once_without_submission (p : Page) :
    ((addCopiesPrompt none p).page = p ∧
      (addCopiesPrompt none p).wroteAny = false ∧
      (addCopiesPrompt none p).clickedAny = false ∧
      (addCopiesPrompt none p).alerts = 1) ∧
    ((lostCopiesPrompt none p).page = p ∧
      (lostCopiesPrompt none p).wroteAny = false ∧
      (lostCopiesPrompt none p).clickedAny = false ∧
      (lostCopiesPrompt none p).alerts = 1) ∧
    (∀ v : Option String,
      (addCopiesPrompt v p).alerts =
        (if v ≠ none ∧ isNaN v = false ∧ gtZero v = true then 0 else 1) ∧
      (lostCopiesPrompt v p).alerts =
        (if v ≠ none ∧ isNaN v = false ∧ gtZero v = true then 0 else 1)) := by
  refine ⟨?_, ?_, fun v => ⟨addCopiesPrompt_alerts v p, lostCopiesPrompt_alerts v p⟩⟩
  · rw [addCopiesPrompt_invalid none p null_not_valid]
    simp [Outcome.wroteAny, Outcome.clickedAny, Outcome.alerts]
  · rw [lostCopiesPrompt_invalid none p null_not_valid]
    simp [Outcome.wroteAny, Outcome.clickedAny, Outcome.alerts]

/-! ## Theorems: drag to scroll -/

theorem bitLengthAux_le (fuel a k : Nat) (h : a < 2 ^ k) : bitLengthAux fuel a ≤ k := by
  induction fuel generalizing a k with
  | zero => simp [bitLengthAux]
  | succ f ih =>
    unfold bitLengthAux
    split
    · omega
    · rename_i ha
      cases k with
      | zero => simp at h; exact absurd h ha
      | succ k1 =>
        have : a / 2 < 2 ^ k1 := by
          rw [Nat.div_lt_iff_lt_mul (by decide)]
          rw [pow_succ] at h; exact h
        have := ih (a / 2) k1 this
        omega

theorem lt_of_bitLengthAux_le (fuel a k : Nat) (hf : a ≤ fuel) (h : bitLengthAux fuel a ≤ k) :
    a < 2 ^ k := by
  induction fuel generalizing a k with
  | zero =>
    have : a = 0 := by omega
    subst this; exact pow_pos (by decide) k
  | succ f ih =>
    unfold bitLengthAux at h
    split at h
    · rename_i ha; subst ha; exact pow_pos (by decide) k
    · rename_i ha
      cases k with
      | zero => omega
      | succ k1 =>
        have h1 : a / 2 ≤ f := by omega
        have := ih (a / 2) k1 h1 (by omega)
        rw [Nat.div_lt_iff_lt_mul (by decide)] at this
        rw [pow_succ]; exact this

/-- The number `bitLength a` is the least `k` with `a < 2^k`. -/
theorem bitLength_le_iff (a k : Nat) : bitLength a ≤ k ↔ a < 2 ^ k :=
  ⟨lt_of_bitLengthAux_le a a k (le_refl a), bitLengthAux_le a a k⟩

/-- Rounding is exact on a magnitude `c * 2^(t - s)` units with `c` of at most 53 binary
digits, below the overflow threshold. -/
theorem Num.round_exact (neg : Bool) (c t s : Nat) (hc : c < 2 ^ 53) (hst : s ≤ t)
    (hlt : c * 2 ^ (t - s) < 2 ^ 2098) :
    Num.round neg (c * 2 ^ t) s =
      Num.fin (if neg = true then -((c * 2 ^ (t - s) : Nat) : Int)
        else ((c * 2 ^ (t - s) : Nat) : Int)) := by
  have hb : bitLength (c * 2 ^ t) - 53 ≤ t := by
    have h1 : c * 2 ^ t < 2 ^ (53 + t) := by
      rw [pow_add]
      exact Nat.mul_lt_mul_of_pos_right hc (pow_pos (by decide) t)
    have := (bitLength_le_iff _ _).mpr h1
    omega
  have hd1 : s ≤ max s (bitLength (c * 2 ^ t) - 53) := le_max_left _ _
  have hd2 : max s (bitLength (c * 2 ^ t) - 53) ≤ t := max_le hst hb
  unfold Num.round
  generalize max s (bitLength (c * 2 ^ t) - 53) = drop at hd1 hd2
  have hpos : 0 < 2 ^ drop := pow_pos (by decide) drop
  have hdiv : c * 2 ^ t = (c * 2 ^ (t - drop)) * 2 ^ drop := by
    rw [mul_assoc, ← pow_add, Nat.sub_add_cancel hd2]
  have hq : c * 2 ^ t / 2 ^ drop = c * 2 ^ (t - drop) := by
    rw [hdiv, Nat.mul_div_cancel _ hpos]
  have hr : c * 2 ^ t % 2 ^ drop = 0 := by
    rw [hdiv, Nat.mul_mod_left]
  have hu : c * 2 ^ (t - drop) * 2 ^ (drop - s) = c * 2 ^ (t - s) := by
    rw [mul_assoc, ← pow_add]
    congr 2
    omega
  have hne : ¬ (0 = 2 ^ drop) := by omega
  simp only [hq, hr, Nat.mul_zero, Nat.not_lt_zero, decide_False, hne, Bool.false_and,
    Bool.or_self, Bool.false_eq_true, if_false, hu]
  rw [if_neg (by omega)]

/-- Subtraction of finite numbers is exact when the difference has a 53-digit form. -/
theorem Num.sub_fin_exact (x y : Int) (c t : Nat) (h : (x - y).natAbs = c * 2 ^ t)
    (hc : c < 2 ^ 53) (hlt : c * 2 ^ t < 2 ^ 2098) :
    Num.sub (Num.fin x) (Num.fin y) = Num.fin (x - y) := by
  show Num.round (decide (x - y < 0)) (x - y).natAbs 0 = Num.fin (x - y)
  rw [h, Num.round_exact _ c t 0 hc (Nat.zero_le t) (by rw [Nat.sub_zero]; exact hlt),
    Nat.sub_zero, ← h]
  congr 1
  by_cases hneg : x - y < 0
  · simp only [hneg, decide_True, if_true]
    rw [Int.ofNat_natAbs_of_nonpos (le_of_lt hneg), neg_neg]
  · simp only [hneg, decide_False, Bool.false_eq_true, if_false]
    exact Int.natAbs_of_nonneg (not_lt.mp hneg)

/-- Multiplication of finite numbers is exact when the product has a 53-digit form. -/
theorem Num.mul_fin_exact (x y z : Int) (c t : Nat) (hz : z * ((2 ^ 1074 : Nat) : Int) = x * y)
    (h : x.natAbs * y.natAbs = c * 2 ^ t) (ht : 1074 ≤ t) (hc : c < 2 ^ 53)
    (hlt : c * 2 ^ (t - 1074) < 2 ^ 2098) :
    Num.mul (Num.fin x) (Num.fin y) = Num.fin z := by
  show Num.round (decide (x < 0) != decide (y < 0)) (x.natAbs * y.natAbs) 1074 = Num.fin z
  rw [h, Num.round_exact _ c t 1074 hc ht hlt]
  congr 1
  have hpos : (0 : Int) < ((2 ^ 1074 : Nat) : Int) := by
    exact_mod_cast pow_pos (by decide : 0 < 2) 1074
  have hzabs : z.natAbs = c * 2 ^ (t - 1074) := by
    have h1 : z.natAbs * 2 ^ 1074 = c * 2 ^ (t - 1074) * 2 ^ 1074 := by
      have := congrArg Int.natAbs hz
      rw [Int.natAbs_mul, Int.natAbs_mul, Int.natAbs_ofNat, h] at this
      rw [this, mul_assoc, ← pow_add, Nat.sub_add_cancel ht]
    exact Nat.eq_of_mul_eq_mul_right (pow_pos (by decide) 1074) h1
  rw [← hzabs]
  by_cases hz0 : z < 0
  · have hxy : x * y < 0 := by rw [← hz]; exact mul_neg_of_neg_of_pos hz0 hpos
    have hs : (decide (x < 0) != decide (y < 0)) = true := by
      rcases mul_neg_iff.mp hxy with ⟨hx, hy⟩ | ⟨hx, hy⟩
      · simp [hy, not_lt.mpr (le_of_lt hx)]
      · simp [hx, not_lt.mpr (le_of_lt hy)]
    rw [hs, if_pos rfl, Int.ofNat_natAbs_of_nonpos (le_of_lt hz0), neg_neg]
  · have hz1 : 0 ≤ z := not_lt.mp hz0
    rw [Int.natAbs_of_nonneg hz1]
    by_cases hs : (decide (x < 0) != decide (y < 0)) = true
    · rw [if_pos hs]
      have hxy : x * y ≤ 0 := by
        by_cases hx : x < 0
        · have hy : ¬ y < 0 := by intro hy; simp [hx, hy] at hs
          exact mul_nonpos_of_nonpos_of_nonneg (le_of_lt hx) (not_lt.mp hy)
        · have hy : y < 0 := by
            by_contra hy; simp [hx, hy] at hs
          exact mul_nonpos_of_nonneg_of_nonpos (not_lt.mp hx) (le_of_lt hy)
      have : z * ((2 ^ 1074 : Nat) : Int) ≤ 0 := by rw [hz]; exact hxy
      have hz2 : z ≤ 0 := nonpos_of_mul_nonpos_left this hpos
      have : z = 0 := le_antisymm hz2 hz1
      rw [this]; rfl
    · rw [if_neg hs]

theorem Num.toRat_dyadic (n : Int) (g : Nat) (hg : g ≤ 1074) :
    (Num.dyadic n g).toRat = some ((n : ℚ) / 2 ^ g) := by
  simp only [Num.dyadic, Num.toRat, Option.some.injEq]
  have h : (2 : ℚ) ^ 1074 = 2 ^ (1074 - g) * 2 ^ g := by
    rw [← pow_add, Nat.sub_add_cancel hg]
  rw [h]
  push_cast
  field_simp
  ring

/-- Subtraction of two numbers of the same dyadic scale is exact when the difference of
the numerators has at most 53 binary digits. -/
theorem Num.sub_dyadic (x y : Int) (g : Nat) (h : (x - y).natAbs < 2 ^ 53) :
    Num.sub (Num.dyadic x g) (Num.dyadic y g) = Num.dyadic (x - y) g := by
  unfold Num.dyadic
  have h1 : (x * ((2 ^ (1074 - g) : Nat) : Int) - y * ((2 ^ (1074 - g) : Nat) : Int)).natAbs =
      (x - y).natAbs * 2 ^ (1074 - g) := by
    rw [← sub_mul, Int.natAbs_mul, Int.natAbs_ofNat]
  have h2 : (x - y).natAbs * 2 ^ (1074 - g) < 2 ^ 2098 :=
    calc (x - y).natAbs * 2 ^ (1074 - g) < 2 ^ 53 * 2 ^ (1074 - g) :=
          Nat.mul_lt_mul_of_pos_right h (pow_pos (by decide) _)
      _ = 2 ^ (53 + (1074 - g)) := by rw [pow_add]
      _ < 2 ^ 2098 := Nat.pow_lt_pow_right (by decide) (by omega)
  rw [Num.sub_fin_exact _ _ (x - y).natAbs (1074 - g) h1 h h2, sub_mul]

/-- A number of dyadic scale `g` is also one of scale `g + 1`, with twice the numerator. -/
theorem Num.dyadic_succ (x : Int) (g : Nat) (hg : g ≤ 1073) :
    Num.dyadic x g = Num.dyadic (2 * x) (g + 1) := by
  unfold Num.dyadic
  congr 1
  have : 1074 - g = (1074 - (g + 1)) + 1 := by omega
  rw [this, pow_succ]
  push_cast
  ring

/-- Multiplication by 1.5 is exact when three times the numerator has at most 53 binary
digits. -/
theorem Num.mul_dyadic_three_halves (x : Int) (g : Nat) (hg : g ≤ 1073)
    (h : (3 * x).natAbs < 2 ^ 53) :
    Num.mul (Num.dyadic x g) (Num.dyadic 3 1) = Num.dyadic (3 * x) (g + 1) := by
  unfold Num.dyadic
  have e1 : 1074 - g = (1073 - g) + 1 := by omega
  have e2 : 1074 - (g + 1) = 1073 - g := by omega
  have e3 : (1074 : Nat) = 1073 + 1 := rfl
  apply Num.mul_fin_exact _ _ _ (3 * x).natAbs ((1073 - g) + 1074)
  · rw [e2, e1]
    have : (1074 : Nat) - 1 = 1073 := rfl
    rw [this]
    rw [e3, pow_succ, pow_succ]
    push_cast
    ring
  · rw [Int.natAbs_mul, Int.natAbs_mul, Int.natAbs_mul, Int.natAbs_ofNat, Int.natAbs_ofNat, e1]
    have : (1074 : Nat) - 1 = 1073 := rfl
    rw [this]
    have h3 : Int.natAbs 3 = 3 := rfl
    rw [h3, show (1073 - g) + 1074 = ((1073 - g) + 1) + 1073 by omega, pow_add _ _ 1073]
    ring
  · omega
  · exact h
  · rw [Nat.add_sub_cancel]
    calc (3 * x).natAbs * 2 ^ (1073 - g) < 2 ^ 53 * 2 ^ (1073 - g) :=
          Nat.mul_lt_mul_of_pos_right h (pow_pos (by decide) _)
      _ = 2 ^ (53 + (1073 - g)) := by rw [pow_add]
      _ < 2 ^ 2098 := Nat.pow_lt_pow_right (by decide) (by omega)

theorem deliver_append (es fs : List MouseEvent) (d : DragScroll) :
    deliver (es ++ fs) d = deliver fs (deliver es d) := by
  simp [deliver, List.foldl_append]

theorem deliver_cons (e : MouseEvent) (es : List MouseEvent) (d : DragScroll) :
    deliver (e :: es) d = deliver es (dispatch e d).1 := rfl

/-- Intermediate `mousemove`s keep the drag going and touch neither the variables
recorded at `mousedown` nor `offsetLeft`. -/
theorem deliver_moves_keeps (moves : List Num) (d : DragScroll) (h : d.isDown = true) :
    (deliver (moves.map MouseEvent.mousemove) d).isDown = true ∧
    (deliver (moves.map MouseEvent.mousemove) d).startX = d.startX ∧
    (deliver (moves.map MouseEvent.mousemove) d).savedScrollLeft = d.savedScrollLeft ∧
    (deliver (moves.map MouseEvent.mousemove) d).container.offsetLeft =
      d.container.offsetLeft := by
  induction moves generalizing d with
  | nil => simp [deliver, h]
  | cons x xs ih =>
    rw [List.map_cons, deliver_cons]
    have hd : (dispatch (MouseEvent.mousemove x) d).1 =
        { d with container := { d.container with
            scrollLeft := Num.sub d.savedScrollLeft
              (Num.mul (Num.sub (Num.sub x d.container.offsetLeft) d.startX)
                (Num.dyadic 3 1)) } } := by
      simp [dispatch, onMouseMove, h]
    rw [hd]
    exact ih _ h

/-- C5, as stated, fails. With `X0 = 100.3` and `X1 = 70.1` (the doubles nearest to them)
and `S0 = 50`, the scroll offset assigned when `offsetLeft` is 0 differs from the one assigned
when `offsetLeft` is 300; and with `offsetLeft = 8`, `X0 = 100`, `X1 = 70` and `S0 = 50.4` (the
double nearest to it) the scroll offset assigned is not `S0 + 45`. -/
theorem drag_offset_depends_on_offsetLeft :
    (deliver [MouseEvent.mousedown (Num.dyadic 7057985041019699 46),
        MouseEvent.mousemove (Num.dyadic 2466424483427123 45)]
      (DragScroll.init ⟨Num.dyadic 0 0, Num.dyadic 50 0, []⟩)).container.scrollLeft ≠
    (deliver [MouseEvent.mousedown (Num.dyadic 7057985041019699 46),
        MouseEvent.mousemove (Num.dyadic 2466424483427123 45)]
      (DragScroll.init ⟨Num.dyadic 300 0, Num.dyadic 50 0, []⟩)).container.scrollLeft ∧
    (deliver [MouseEvent.mousedown (Num.dyadic 100 0), MouseEvent.mousemove (Num.dyadic 70 0)]
      (DragScroll.init ⟨Num.dyadic 8 0, Num.dyadic 7093169413108531 47,
        []⟩)).container.scrollLeft ≠
      Num.dyadic (7093169413108531 + 45 * 2 ^ 47) 47 := by
  decide!

/-- C5, amended: if a drag starts (`mousedown`) at pointer position `X0`, then a `mousemove`
at `X1` during that drag assigns to the scroll offset the double
`S0 - ((X1 - L) - (X0 - L)) * 1.5`, each operation rounded, where `S0` and `L` are the scroll
offset and the `offsetLeft` of the container at the `mousedown`, whatever the variables held
before and whatever `mousemove`s came in between; and when `X0`, `X1`, `S0` and `L` are
multiples of `2^(-g)` (whole pixels for `g = 0`) with numerators of magnitude at most `2^48`,
no operation rounds and the value assigned is exactly `S0 - (X1 - X0) * 1.5`, whatever `L`
is. -/
theorem drag_move_assigns_rounded_offset (X0 X1 : Num) (moves : List Num) (d : DragScroll) :
    (deliver (MouseEvent.mousedown X0 :: (moves.map MouseEvent.mousemove ++
        [MouseEvent.mousemove X1])) d).container.scrollLeft =
      Num.sub d.container.scrollLeft
        (Num.mul (Num.sub (Num.sub X1 d.container.offsetLeft)
          (Num.sub X0 d.container.offsetLeft)) (Num.dyadic 3 1)) ∧
    ∀ (x0 x1 s0 l : Int) (g : Nat), g ≤ 1073 →
      x0.natAbs ≤ 2 ^ 48 → x1.natAbs ≤ 2 ^ 48 → s0.natAbs ≤ 2 ^ 48 → l.natAbs ≤ 2 ^ 48 →
      X0 = Num.dyadic x0 g → X1 = Num.dyadic x1 g →
      d.container.scrollLeft = Num.dyadic s0 g → d.container.offsetLeft = Num.dyadic l g →
      (deliver (MouseEvent.mousedown X0 :: (moves.map MouseEvent.mousemove ++
          [MouseEvent.mousemove X1])) d).container.scrollLeft =
        Num.dyadic (2 * s0 - 3 * (x1 - x0)) (g + 1) ∧
      (deliver (MouseEvent.mousedown X0 :: (moves.map MouseEvent.mousemove ++
          [MouseEvent.mousemove X1])) d).container.scrollLeft.toRat =
        some ((s0 : ℚ) / 2 ^ g - ((x1 : ℚ) / 2 ^ g - (x0 : ℚ) / 2 ^ g) * (3 / 2)) := by
  have hmain : (deliver (MouseEvent.mousedown X0 :: (moves.map MouseEvent.mousemove ++
        [MouseEvent.mousemove X1])) d).container.scrollLeft =
      Num.sub d.container.scrollLeft
        (Num.mul (Num.sub (Num.sub X1 d.container.offsetLeft)
          (Num.sub X0 d.container.offsetLeft)) (Num.dyadic 3 1)) := by
    rw [deliver_cons, deliver_append]
    have h0 : (dispatch (MouseEvent.mousedown X0) d).1 = onMouseDown X0 d := rfl
    rw [h0]
    obtain ⟨h1, h2, h3, h4⟩ := deliver_moves_keeps moves (onMouseDown X0 d) rfl
    generalize deliver (moves.map MouseEvent.mousemove) (onMouseDown X0 d) = d1 at *
    simp only [deliver, List.foldl_cons, List.foldl_nil, dispatch, onMouseMove, h1, h2, h3, h4,
      Bool.not_true, Bool.false_eq_true, if_false, onMouseDown]
  refine ⟨hmain, ?_⟩
  intro x0 x1 s0 l g hg b0 b1 bs bl e0 e1 es el
  have hres : (deliver (MouseEvent.mousedown X0 :: (moves.map MouseEvent.mousemove ++
        [MouseEvent.mousemove X1])) d).container.scrollLeft =
      Num.dyadic (2 * s0 - 3 * (x1 - x0)) (g + 1) := by
    have p48 : (2 : Nat) ^ 48 = 281474976710656 := by norm_num
    have p53 : (2 : Nat) ^ 53 = 9007199254740992 := by norm_num
    rw [p48] at b0 b1 bs bl
    have a1 : (x1 - l).natAbs < 2 ^ 53 := by rw [p53]; omega
    have a0 : (x0 - l).natAbs < 2 ^ 53 := by rw [p53]; omega
    have a2 : ((x1 - l) - (x0 - l)).natAbs < 2 ^ 53 := by rw [p53]; omega
    have a3 : (3 * ((x1 - l) - (x0 - l))).natAbs < 2 ^ 53 := by rw [p53]; omega
    have a4 : (2 * s0 - 3 * ((x1 - l) - (x0 - l))).natAbs < 2 ^ 53 := by rw [p53]; omega
    rw [hmain, e0, e1, es, el, Num.sub_dyadic x1 l g a1, Num.sub_dyadic x0 l g a0,
      Num.sub_dyadic _ _ g a2, Num.mul_dyadic_three_halves _ g hg a3,
      Num.dyadic_succ s0 g hg, Num.sub_dyadic _ _ (g + 1) a4]
    congr 1
    ring
  refine ⟨hres, ?_⟩
  rw [hres, Num.toRat_dyadic _ _ (by omega)]
  congr 1
  push_cast
  rw [pow_succ]
  field_simp
  ring

/-- Witness of C5: whole pixels `X0 = 100`, `S0 = 50`, `X1 = 70`, with `offsetLeft = 8` and a
`mousemove` in between, give 95. -/
theorem drag_move_assigns_rounded_offset_witness :
    (deliver (MouseEvent.mousedown (Num.dyadic 100 0) ::
        ([Num.dyadic 83 0].map MouseEvent.mousemove ++ [MouseEvent.mousemove (Num.dyadic 70 0)]))
      (DragScroll.init ⟨Num.dyadic 8 0, Num.dyadic 50 0,
        ["scroll-container"]⟩)).container.scrollLeft = Num.dyadic 95 0 := by
  have h := ((drag_move_assigns_rounded_offset (Num.dyadic 100 0) (Num.dyadic 70 0)
    [Num.dyadic 83 0] (DragScroll.init ⟨Num.dyadic 8 0, Num.dyadic 50 0,
      ["scroll-container"]⟩)).2 100 70 50 8 0 (by decide) (by decide) (by decide) (by decide)
      (by decide) rfl rfl rfl rfl).1
  rw [h]
  decide!

theorem idleAfter_append_singleton (es : List MouseEvent) (e : MouseEvent) :
    idleAfter (es ++ [e]) =
      match e with
      | MouseEvent.mousemove _ => idleAfter es
      | MouseEvent.mousedown _ => false
      | _ => true := by
  cases e <;> simp [idleAfter, MouseEvent.isMove, List.find?_cons]

/-- The variable `isDown` is false exactly when the events so far leave the container
Idle. -/
theorem isDown_deliver (es : List MouseEvent) (c : Container) :
    (deliver es (DragScroll.init c)).isDown = !idleAfter es := by
  induction es using List.reverseRecOn with
  | nil => simp [deliver, DragScroll.init, idleAfter]
  | append_singleton es e ih =>
    rw [deliver_append, idleAfter_append_singleton]
    cases e with
    | mousedown x => simp [deliver, dispatch, onMouseDown]
    | mouseleave => simp [deliver, dispatch, onMouseLeave]
    | mouseup => simp [deliver, dispatch, onMouseUp]
    | mousemove x =>
      simp only [deliver, List.foldl_cons, List.foldl_nil, dispatch] at ih ⊢
      rw [← ih]
      unfold onMouseMove
      split <;> rfl

/-- C6: after any sequence of mouse events that leaves the container Idle (no `mousedown`
yet, or the most recent of `mousedown`, `mouseup`, `mouseleave` is not a `mousedown`), a
`mousemove` changes nothing, the scroll offset included, and does not call
`preventDefault`. -/
theorem idle_mousemove_changes_nothing (es : List MouseEvent) (c : Container) (pageX : Num)
    (hidle : idleAfter es = true) :
    dispatch (MouseEvent.mousemove pageX) (deliver es (DragScroll.init c)) =
        (deliver es (DragScroll.init c), false) ∧
    (deliver (es ++ [MouseEvent.mousemove pageX]) (DragScroll.init c)).container.scrollLeft =
      (deliver es (DragScroll.init c)).container.scrollLeft := by
  have hd : (deliver es (DragScroll.init c)).isDown = false := by
    rw [isDown_deliver, hidle]; rfl
  have h1 : dispatch (MouseEvent.mousemove pageX) (deliver es (DragScroll.init c)) =
      (deliver es (DragScroll.init c), false) := by
    simp [dispatch, onMouseMove, hd]
  refine ⟨h1, ?_⟩
  rw [deliver_append]
  simp only [deliver, List.foldl_cons, List.foldl_nil] at h1 ⊢
  rw [h1]

/-- Witness of C6: a move after a finished drag, and a move with no drag at all. -/
theorem idle_mousemove_changes_nothing_witness :
    (deliver ([MouseEvent.mousedown (Num.dyadic 100 0), MouseEvent.mousemove (Num.dyadic 70 0),
        MouseEvent.mouseup] ++ [MouseEvent.mousemove (Num.dyadic 10 0)])
      (DragScroll.init ⟨Num.dyadic 8 0, Num.dyadic 50 0, []⟩)).container.scrollLeft =
    (deliver [MouseEvent.mousedown (Num.dyadic 100 0), MouseEvent.mousemove (Num.dyadic 70 0),
        MouseEvent.mouseup]
      (DragScroll.init ⟨Num.dyadic 8 0, Num.dyadic 50 0, []⟩)).container.scrollLeft ∧
    dispatch (MouseEvent.mousemove (Num.dyadic 10 0))
        (deliver [] (DragScroll.init ⟨Num.dyadic 8 0, Num.dyadic 50 0, []⟩)) =
      (deliver [] (DragScroll.init ⟨Num.dyadic 8 0, Num.dyadic 50 0, []⟩), false) :=
  ⟨(idle_mousemove_changes_nothing [MouseEvent.mousedown (Num.dyadic 100 0),
      MouseEvent.mousemove (Num.dyadic 70 0), MouseEvent.mouseup]
      ⟨Num.dyadic 8 0, Num.dyadic 50 0, []⟩ (Num.dyadic 10 0) (by decide)).2,
    (idle_mousemove_changes_nothing [] ⟨Num.dyadic 8 0, Num.dyadic 50 0, []⟩ (Num.dyadic 10 0)
      (by decide)).1⟩

theorem mem_classListAdd (classList : List String) (token : String) :
    token ∈ classListAdd classList token := by
  unfold classListAdd
  split
  · assumption
  · simp

theorem not_mem_classListRemove (classList : List String) (token : String) :
    token ∉ classListRemove classList token := by
  simp [classListRemove]

/-- The class and the variable agree after every listener but `mousemove`, which keeps
both. -/
theorem active_iff_isDown_dispatch (e : MouseEvent) (d : DragScroll)
    (h : "active" ∈ d.container.classList ↔ d.isDown = true) :
    ("active" ∈ (dispatch e d).1.container.classList ↔ (dispatch e d).1.isDown = true) := by
  cases e with
  | mousedown x => simp [dispatch, onMouseDown, mem_classListAdd]
  | mouseleave => simp [dispatch, onMouseLeave, not_mem_classListRemove]
  | mouseup => simp [dispatch, onMouseUp, not_mem_classListRemove]
  | mousemove x =>
    simp only [dispatch, onMouseMove]
    split <;> simpa using h

theorem active_iff_isDown_deliver (es : List MouseEvent) (d : DragScroll)
    (h : "active" ∈ d.container.classList ↔ d.isDown = true) :
    ("active" ∈ (deliver es d).container.classList ↔ (deliver es d).isDown = true) := by
  induction es generalizing d with
  | nil => simpa [deliver] using h
  | cons e es ih =>
    rw [deliver_cons]
    exact ih _ (active_iff_isDown_dispatch e d h)

/-- C10: for a container that starts without the class `active`, after every sequence of
`mousedown`, `mousemove`, `mouseup` and `mouseleave` events the container carries `active` if
and only if `isDown` is true, which is if and only if the events leave it Dragging; in any
state `mousedown` sets `isDown` and adds the class, `mouseup` and `mouseleave` clear `isDown`
and remove the class, and `mousemove` changes neither. -/
theorem active_class_iff_dragging (c : Container) (hc : "active" ∉ c.classList) :
    (∀ es : List MouseEvent,
      ("active" ∈ (deliver es (DragScroll.init c)).container.classList ↔
        (deliver es (DragScroll.init c)).isDown = true) ∧
      ((deliver es (DragScroll.init c)).isDown = true ↔ idleAfter es = false)) ∧
    (∀ (d : DragScroll) (x : Num),
      (dispatch (MouseEvent.mousedown x) d).1.isDown = true ∧
      "active" ∈ (dispatch (MouseEvent.mousedown x) d).1.container.classList) ∧
    (∀ d : DragScroll,
      (dispatch MouseEvent.mouseup d).1.isDown = false ∧
      "active" ∉ (dispatch MouseEvent.mouseup d).1.container.classList ∧
      (dispatch MouseEvent.mouseleave d).1.isDown = false ∧
      "active" ∉ (dispatch MouseEvent.mouseleave d).1.container.classList) ∧
    (∀ (d : DragScroll) (x : Num),
      (dispatch (MouseEvent.mousemove x) d).1.isDown = d.isDown ∧
      (dispatch (MouseEvent.mousemove x) d).1.container.classList = d.container.classList) := by
  refine ⟨fun es => ⟨?_, ?_⟩, ?_, ?_, ?_⟩
  · exact active_iff_isDown_deliver es _ (by simp [DragScroll.init, hc])
  · rw [isDown_deliver]; simp
  · intro d x
    simp [dispatch, onMouseDown, mem_classListAdd]
  · intro d
    simp [dispatch, onMouseUp, onMouseLeave, not_mem_classListRemove]
  · intro d x
    simp only [dispatch, onMouseMove]
    split <;> simp

/-- Witness of C10: a container with the class `scroll-container` alone, in the middle of a
drag. -/
theorem active_class_iff_dragging_witness :
    ("active" ∈ (deliver
        [MouseEvent.mousedown (Num.dyadic 100 0), MouseEvent.mousemove (Num.dyadic 70 0)]
        (DragScroll.init
          ⟨Num.dyadic 8 0, Num.dyadic 50 0, ["scroll-container"]⟩)).container.classList ↔
      (deliver [MouseEvent.mousedown (Num.dyadic 100 0), MouseEvent.mousemove (Num.dyadic 70 0)]
        (DragScroll.init
          ⟨Num.dyadic 8 0, Num.dyadic 50 0, ["scroll-container"]⟩)).isDown = true) :=
  ((active_class_iff_dragging ⟨Num.dyadic 8 0, Num.dyadic 50 0, ["scroll-container"]⟩
    (by decide)).1
    [MouseEvent.mousedown (Num.dyadic 100 0), MouseEvent.mousemove (Num.dyadic 70 0)]).1

/-! ## Theorems: message fader -/

theorem SameFor.refl (m : NodeId) (w : World) : SameFor m w w :=
  ⟨rfl, rfl, rfl, rfl, rfl⟩

theorem SameFor.trans {m : NodeId} {w w1 w2 : World} (h1 : SameFor m w w1)
    (h2 : SameFor m w1 w2) : SameFor m w w2 :=
  ⟨h2.parentNode.trans h1.parentNode, h2.fading.trans h1.fading,
    h2.transition.trans h1.transition, h2.opacity.trans h1.opacity, h2.timers.trans h1.timers⟩

theorem timersOn_setTimeout (m : NodeId) (task : Task) (delay : Nat) (w : World) :
    timersOn m (setTimeout task delay w) =
      timersOn m w ++ (if task.target = m then [⟨w.now + delay, task⟩] else []) := by
  unfold timersOn setTimeout
  by_cases h : task.target = m <;> simp [List.filter_append, List.filter_cons, h]

/-- The removal step never throws: `parentNode` is read right before `removeChild`. -/
theorem removalStep_eq (msg : NodeId) (w : World) :
    removalStep msg w =
      Except.ok (match (w.nodes msg).parentNode with
        | some parent => detach parent msg w
        | none => w) := by
  unfold removalStep
  cases h : (w.nodes msg).parentNode with
  | none => rfl
  | some parent => simp [removeChild, h]

/-- A timer callback on another element leaves `m` as it is, adds no timer on `m` and
keeps the clock. -/
theorem runTask_other (m : NodeId) (task : Task) (w : World) (h : task.target ≠ m) :
    ∃ w1, runTask task w = Except.ok w1 ∧ SameFor m w w1 ∧ w1.now = w.now := by
  cases task with
  | fade msg =>
    have hm : m ≠ msg := fun e => h e.symm
    refine ⟨_, rfl, ⟨?_, ?_, ?_, ?_, ?_⟩, rfl⟩
    · simp [setTimeout, Function.update_noteq hm]
    · simp [setTimeout, Function.update_noteq hm]
    · simp [setTimeout, Function.update_noteq hm]
    · simp [setTimeout, Function.update_noteq hm]
    · rw [timersOn_setTimeout]
      have : (Task.remove msg).target ≠ m := h
      simp [this, timersOn]
  | remove msg =>
    have hm : m ≠ msg := fun e => h e.symm
    simp only [runTask, removalStep_eq]
    cases hp : (w.nodes msg).parentNode with
    | none => exact ⟨w, rfl, SameFor.refl m w, rfl⟩
    | some parent =>
      refine ⟨_, rfl, ⟨?_, ?_, ?_, ?_, rfl⟩, rfl⟩ <;>
      · simp only [detach, Function.update_noteq hm]
        by_cases hpm : m = parent
        · subst hpm; simp
        · simp [Function.update_noteq hpm]

theorem fire_other (m : NodeId) (w : World) (t : Timer) (h : t.task.target ≠ m) :
    SameFor m w (fire w t) ∧ (fire w t).now = w.now := by
  obtain ⟨w1, h1, h2, h3⟩ := runTask_other m t.task w h
  simp only [fire, h1]
  exact ⟨h2, h3⟩

/-- The fade step: style set, removal scheduled 500 ms later, nothing else changed. -/
theorem fire_fade (d : Nat) (msg : NodeId) (w : World) :
    (fire w ⟨d, Task.fade msg⟩).now = w.now ∧
    (fire w ⟨d, Task.fade msg⟩).timers = w.timers ++ [⟨w.now + 500, Task.remove msg⟩] ∧
    ((fire w ⟨d, Task.fade msg⟩).nodes msg).transition = "opacity 0.5s ease" ∧
    ((fire w ⟨d, Task.fade msg⟩).nodes msg).opacity = "0" ∧
    ((fire w ⟨d, Task.fade msg⟩).nodes msg).parentNode = (w.nodes msg).parentNode ∧
    ((fire w ⟨d, Task.fade msg⟩).nodes msg).fading = (w.nodes msg).fading := by
  simp [fire, runTask, fadeStep, setTimeout]

theorem fire_remove (d : Nat) (msg : NodeId) (w : World) :
    fire w ⟨d, Task.remove msg⟩ =
      match (w.nodes msg).parentNode with
      | some parent => detach parent msg w
      | none => w := by
  simp only [fire, runTask, removalStep_eq]

theorem fire_now (w : World) (t : Timer) : (fire w t).now = w.now := by
  obtain ⟨d, task⟩ := t
  cases task with
  | fade msg => exact (fire_fade d msg w).1
  | remove msg =>
    rw [fire_remove]
    cases (w.nodes msg).parentNode <;> rfl

theorem foldl_fire_now (ds : List Timer) (w : World) : (ds.foldl fire w).now = w.now := by
  induction ds generalizing w with
  | nil => rfl
  | cons t ts ih => rw [List.foldl_cons, ih, fire_now]

theorem foldl_fire_others (m : NodeId) (ds : List Timer) (w : World)
    (h : ∀ t ∈ ds, t.task.target ≠ m) : SameFor m w (ds.foldl fire w) := by
  induction ds generalizing w with
  | nil => exact SameFor.refl m w
  | cons t ts ih =>
    rw [List.foldl_cons]
    exact (fire_other m w t (h t (List.mem_cons_self t ts))).1.trans
      (ih _ fun t1 h1 => h t1 (List.mem_cons_of_mem t h1))

/-- Among due timers of which exactly one, `tm`, works on `m`: up to that one nothing
changes for `m`, and nothing changes for `m` after it. -/
theorem foldl_fire_single (m : NodeId) (tm : Timer) (ds : List Timer) (w : World)
    (h : ds.filter (fun t => t.task.target = m) = [tm]) :
    ∃ w1, SameFor m w w1 ∧ w1.now = w.now ∧ SameFor m (fire w1 tm) (ds.foldl fire w) := by
  induction ds generalizing w with
  | nil => simp at h
  | cons t ts ih =>
    rw [List.foldl_cons]
    by_cases ht : t.task.target = m
    · rw [List.filter_cons_of_pos (by simpa using ht)] at h
      injection h with h1 h2
      subst h1
      refine ⟨w, SameFor.refl m w, rfl, foldl_fire_others m ts _ ?_⟩
      intro t1 ht1 hc
      have : t1 ∈ ts.filter (fun t => t.task.target = m) := by
        simp [List.mem_filter, ht1, hc]
      rw [h2] at this
      simp at this
    · rw [List.filter_cons_of_neg (by simpa using ht)] at h
      obtain ⟨w1, h1, h2, h3⟩ := ih (fire w t) h
      have h0 := fire_other m w t ht
      exact ⟨w1, h0.1.trans h1, h2.trans h0.2, h3⟩

theorem tick_now (w : World) : (tick w).now = w.now + 1 := by
  simp only [tick, foldl_fire_now, startTick]

theorem filter_target_due (m : NodeId) (now : Nat) (ts : List Timer) :
    (ts.filter fun t => t.due ≤ now).filter (fun t => t.task.target = m) =
      (ts.filter fun t => t.task.target = m).filter (fun t => t.due ≤ now) := by
  simp only [List.filter_filter]
  apply List.filter_congr
  intro t _
  exact Bool.and_comm _ _

theorem filter_target_not_due (m : NodeId) (now : Nat) (ts : List Timer) :
    (ts.filter fun t => ¬ t.due ≤ now).filter (fun t => t.task.target = m) =
      (ts.filter fun t => t.task.target = m).filter (fun t => ¬ t.due ≤ now) := by
  simp only [List.filter_filter]
  apply List.filter_congr
  intro t _
  exact Bool.and_comm _ _

/-- A millisecond in which no timer on `m` is due changes nothing for `m`. -/
theorem tick_quiet (m : NodeId) (w : World)
    (h : ∀ t ∈ timersOn m w, w.now + 1 < t.due) : SameFor m w (tick w) := by
  have h0 : SameFor m w (startTick w) := by
    refine ⟨rfl, rfl, rfl, rfl, ?_⟩
    simp only [timersOn, startTick, filter_target_not_due]
    rw [List.filter_eq_self]
    intro t ht
    have := h t ht
    simp only [decide_eq_true_eq]
    omega
  refine h0.trans (foldl_fire_others m _ _ ?_)
  intro t ht hm
  simp only [dueTimers, List.mem_filter, decide_eq_true_eq] at ht
  have := h t (by simp [timersOn, List.mem_filter, ht.1, hm])
  omega

/-- The millisecond in which the one timer on `m` is due: nothing changes for `m` but by
the callback of that timer. -/
theorem tick_single (m : NodeId) (tm : Timer) (w : World)
    (h : timersOn m w = [tm]) (hd : tm.due ≤ w.now + 1) :
    ∃ w1, w1.now = w.now + 1 ∧ (w1.nodes m).parentNode = (w.nodes m).parentNode ∧
      (w1.nodes m).fading = (w.nodes m).fading ∧
      (w1.nodes m).transition = (w.nodes m).transition ∧
      (w1.nodes m).opacity = (w.nodes m).opacity ∧ timersOn m w1 = [] ∧
      SameFor m (fire w1 tm) (tick w) := by
  have h1 : w.timers.filter (fun t => t.task.target = m) = [tm] := h
  have hdue : (dueTimers w).filter (fun t => t.task.target = m) = [tm] := by
    rw [dueTimers, filter_target_due, h1]
    simp [hd]
  have hrest : timersOn m (startTick w) = [] := by
    simp only [timersOn, startTick]
    rw [filter_target_not_due, h1]
    simp [hd]
  obtain ⟨w1, h1, h2, h3⟩ := foldl_fire_single m tm _ (startTick w) hdue
  refine ⟨w1, h2, h1.parentNode, h1.fading, h1.transition, h1.opacity, ?_, h3⟩
  rw [h1.timers]
  exact hrest

theorem fadeOutElement_marked (m : NodeId) (w : World)
    (h : isTruthy (w.nodes m).fading = true) : fadeOutElement (some m) w = Except.ok w := by
  simp [fadeOutElement, h]

theorem fadeOutElement_unmarked (m : NodeId) (w : World)
    (h : isTruthy (w.nodes m).fading = false) :
    ∃ w1, fadeOutElement (some m) w = Except.ok w1 ∧ w1.now = w.now ∧
      w1.timers = w.timers ++ [⟨w.now + 3000, Task.fade m⟩] ∧
      w1.nodes m = { w.nodes m with fading := some "true" } ∧
      (∀ x, x ≠ m → w1.nodes x = w.nodes x) := by
  have hc : fadeOutElement (some m) w = Except.ok (setTimeout (Task.fade m) 3000
      { w with nodes := Function.update w.nodes m { w.nodes m with fading := some "true" } }) := by
    simp only [fadeOutElement, h, Bool.not_false, if_true]
  refine ⟨_, hc, rfl, rfl, ?_, ?_⟩
  · simp [setTimeout]
  · intro x hx
    simp [setTimeout, Function.update_noteq hx]

/-- A call of `fadeOutElement`, on whatever argument, changes nothing for a marked
element and keeps the clock. -/
theorem fadeOutElement_sameFor (m : NodeId) (msg : Option NodeId) (w : World)
    (h : isTruthy (w.nodes m).fading = true) :
    ∃ w1, fadeOutElement msg w = Except.ok w1 ∧ SameFor m w w1 ∧ w1.now = w.now := by
  cases msg with
  | none => exact ⟨w, rfl, SameFor.refl m w, rfl⟩
  | some x =>
    by_cases hx : isTruthy (w.nodes x).fading = true
    · exact ⟨w, fadeOutElement_marked x w hx, SameFor.refl m w, rfl⟩
    · have hx1 : isTruthy (w.nodes x).fading = false := by simpa using hx
      have hmx : m ≠ x := by
        intro e; subst e; rw [h] at hx1; exact Bool.noConfusion hx1
      obtain ⟨w1, h1, h2, h3, _, h5⟩ := fadeOutElement_unmarked x w hx1
      refine ⟨w1, h1, ⟨?_, ?_, ?_, ?_, ?_⟩, h2⟩
      · rw [h5 m hmx]
      · rw [h5 m hmx]
      · rw [h5 m hmx]
      · rw [h5 m hmx]
      · have hne : ¬ (x = m) := fun e => hmx e.symm
        simp [timersOn, h3, List.filter_append, Task.target, hne]

theorem scanAndFadeMessages_sameFor (m : NodeId) (messages : List NodeId) (w : World)
    (h : isTruthy (w.nodes m).fading = true) :
    ∃ w1, scanAndFadeMessages messages w = Except.ok w1 ∧ SameFor m w w1 ∧ w1.now = w.now := by
  induction messages generalizing w with
  | nil => exact ⟨w, rfl, SameFor.refl m w, rfl⟩
  | cons x xs ih =>
    obtain ⟨w1, h1, h2, h3⟩ := fadeOutElement_sameFor m (some x) w h
    obtain ⟨w2, h4, h5, h6⟩ := ih w1 (by rw [h2.fading]; exact h)
    refine ⟨w2, ?_, h2.trans h5, h6.trans h3⟩
    simp only [scanAndFadeMessages, List.foldlM_cons, h1] at h4 ⊢
    exact h4

/-- A call or a scan changes nothing for a marked element and keeps the clock. -/
theorem perform_sameFor (m : NodeId) (s : PageStep) (w : World)
    (h : isTruthy (w.nodes m).fading = true) (hs : s ≠ PageStep.wait) :
    SameFor m w (s.perform w) ∧ (s.perform w).now = w.now := by
  cases s with
  | call msg =>
    obtain ⟨w1, h1, h2, h3⟩ := fadeOutElement_sameFor m msg w h
    simp only [PageStep.perform, h1]
    exact ⟨h2, h3⟩
  | scan messages =>
    obtain ⟨w1, h1, h2, h3⟩ := scanAndFadeMessages_sameFor m messages w h
    simp only [PageStep.perform, h1]
    exact ⟨h2, h3⟩
  | wait => exact absurd rfl hs

theorem waits_cons (s : PageStep) (steps : List PageStep) :
    waits (s :: steps) = waits steps + if s = PageStep.wait then 1 else 0 := by
  by_cases h : s = PageStep.wait
  · subst h; simp [waits]
  · have h1 : ¬ (PageStep.wait = s) := fun e => h e.symm
    simp [waits, List.count_cons, h, h1]

theorem performAll_cons (s : PageStep) (steps : List PageStep) (w : World) :
    performAll (s :: steps) w = performAll steps (s.perform w) := rfl

theorem performAll_append (s1 s2 : List PageStep) (w : World) :
    performAll (s1 ++ s2) w = performAll s2 (performAll s1 w) := by
  simp [performAll, List.foldl_append]

/-- As long as no timer on a marked element `m` comes due, nothing changes for `m`, whatever
calls and scans happen meanwhile; the clock moves with the waits. -/
theorem performAll_quiet (m : NodeId) (steps : List PageStep) (w : World)
    (h : isTruthy (w.nodes m).fading = true)
    (hq : ∀ t ∈ timersOn m w, w.now + waits steps < t.due) :
    SameFor m w (performAll steps w) ∧ (performAll steps w).now = w.now + waits steps := by
  induction steps generalizing w with
  | nil => exact ⟨SameFor.refl m w, by simp [performAll, waits]⟩
  | cons s ss ih =>
    rw [performAll_cons, waits_cons]
    rw [waits_cons] at hq
    by_cases hs : s = PageStep.wait
    · subst hs
      simp only [if_true] at hq ⊢
      have h1 : SameFor m w (tick w) := tick_quiet m w fun t ht => by
        have := hq t ht; omega
      have h2 := ih (tick w) (by rw [h1.fading]; exact h) (fun t ht => by
        rw [h1.timers] at ht
        have := hq t ht
        rw [tick_now]; omega)
      refine ⟨h1.trans h2.1, ?_⟩
      rw [PageStep.perform, h2.2, tick_now]; omega
    · simp only [if_neg hs, Nat.add_zero] at hq ⊢
      have h1 := perform_sameFor m s w h hs
      have h2 := ih (s.perform w) (by rw [h1.1.fading]; exact h) (fun t ht => by
        rw [h1.1.timers] at ht
        rw [h1.2]; exact hq t ht)
      exact ⟨h1.1.trans h2.1, by rw [h2.2, h1.2]⟩

theorem split_at_wait (n : Nat) (steps : List PageStep) (h : n < waits steps) :
    ∃ s1 s2, steps = s1 ++ PageStep.wait :: s2 ∧ waits s1 = n ∧
      waits steps = n + 1 + waits s2 := by
  induction steps generalizing n with
  | nil => simp [waits] at h
  | cons s ss ih =>
    rw [waits_cons] at h
    by_cases hs : s = PageStep.wait
    · subst hs
      simp only [if_true] at h
      cases n with
      | zero => exact ⟨[], ss, rfl, by simp [waits], by rw [waits_cons]; simp; omega⟩
      | succ k =>
        obtain ⟨s1, s2, h1, h2, h3⟩ := ih k (by omega)
        refine ⟨PageStep.wait :: s1, s2, by rw [h1]; rfl, ?_, ?_⟩
        · rw [waits_cons, h2]; simp
        · rw [waits_cons, h3]; simp; omega
    · simp only [if_neg hs, Nat.add_zero] at h
      obtain ⟨s1, s2, h1, h2, h3⟩ := ih n h
      refine ⟨s :: s1, s2, by rw [h1]; rfl, ?_, ?_⟩
      · rw [waits_cons, h2]; simp [hs]
      · rw [waits_cons, h3]; simp [hs]

/-- No timer callback touches the mark of any element. -/
theorem fire_fading (w : World) (t : Timer) (x : NodeId) :
    ((fire w t).nodes x).fading = (w.nodes x).fading := by
  obtain ⟨d, task⟩ := t
  by_cases hx : task.target = x
  · cases task with
    | fade msg =>
      have : msg = x := hx
      subst this
      exact (fire_fade d msg w).2.2.2.2.2
    | remove msg =>
      have : msg = x := hx
      subst this
      rw [fire_remove]
      cases hp : (w.nodes msg).parentNode with
      | none => rfl
      | some parent =>
        by_cases hpm : msg = parent
        · subst hpm; simp [detach]
        · simp [detach, Function.update_noteq hpm]
  · exact (fire_other x w ⟨d, task⟩ hx).1.fading

theorem foldl_fire_fading (ds : List Timer) (w : World) (x : NodeId) :
    ((ds.foldl fire w).nodes x).fading = (w.nodes x).fading := by
  induction ds generalizing w with
  | nil => rfl
  | cons t ts ih => rw [List.foldl_cons, ih, fire_fading]

theorem tick_fading (w : World) (x : NodeId) :
    ((tick w).nodes x).fading = (w.nodes x).fading := by
  rw [tick, foldl_fire_fading]; rfl

/-- A marked element stays marked, whatever happens on the page. -/
theorem perform_marked (m : NodeId) (s : PageStep) (w : World)
    (h : isTruthy (w.nodes m).fading = true) :
    isTruthy ((s.perform w).nodes m).fading = true := by
  by_cases hs : s = PageStep.wait
  · subst hs
    rw [PageStep.perform, tick_fading]; exact h
  · rw [(perform_sameFor m s w h hs).1.fading]; exact h

theorem performAll_marked (m : NodeId) (steps : List PageStep) (w : World)
    (h : isTruthy (w.nodes m).fading = true) :
    isTruthy ((performAll steps w).nodes m).fading = true := by
  induction steps generalizing w with
  | nil => exact h
  | cons s ss ih =>
    rw [performAll_cons]
    exact ih _ (perform_marked m s w h)

/-- Calls and scans, with no time passing, change nothing for a marked element. -/
theorem performAll_calls_sameFor (m : NodeId) (steps : List PageStep) (w : World)
    (h : isTruthy (w.nodes m).fading = true) (hs : waits steps = 0) :
    SameFor m w (performAll steps w) := by
  induction steps generalizing w with
  | nil => exact SameFor.refl m w
  | cons s ss ih =>
    rw [waits_cons] at hs
    have hne : s ≠ PageStep.wait := by
      intro e; rw [if_pos e] at hs; omega
    have h1 := perform_sameFor m s w h hne
    rw [performAll_cons]
    exact h1.1.trans (ih _ (by rw [h1.1.fading]; exact h) (by omega))

theorem performAll_replicate_fixed (s : PageStep) (w : World) (h : s.perform w = w) (n : Nat) :
    performAll (List.replicate n s) w = w := by
  induction n with
  | zero => rfl
  | succ k ih => rw [List.replicate_succ, performAll_cons, h, ih]

/-- A call of `fadeOutElement` on another element changes nothing for `m`, marked or
not, and keeps the clock. -/
theorem fadeOutElement_other (m x : NodeId) (w : World) (hx : x ≠ m) :
    ∃ w1, fadeOutElement (some x) w = Except.ok w1 ∧ SameFor m w w1 ∧ w1.now = w.now := by
  by_cases hm : isTruthy (w.nodes x).fading = true
  · exact ⟨w, fadeOutElement_marked x w hm, SameFor.refl m w, rfl⟩
  · obtain ⟨w1, h1, h2, h3, _, h5⟩ := fadeOutElement_unmarked x w (by simpa using hm)
    have hmx : m ≠ x := fun e => hx e.symm
    refine ⟨w1, h1, ⟨?_, ?_, ?_, ?_, ?_⟩, h2⟩
    · rw [h5 m hmx]
    · rw [h5 m hmx]
    · rw [h5 m hmx]
    · rw [h5 m hmx]
    · simp [timersOn, h3, List.filter_append, Task.target, hx]

/-- A scan whose list holds the unmarked element `m`, wherever in the list and whatever
else the list holds, marks `m` and sets exactly one timer on it. -/
theorem scanAndFadeMessages_schedules (m : NodeId) (messages : List NodeId) (w : World)
    (hun : isTruthy (w.nodes m).fading = false) (hmem : m ∈ messages) :
    ∃ w2, scanAndFadeMessages messages w = Except.ok w2 ∧
      (w2.nodes m).fading = some "true" ∧ w2.now = w.now ∧
      timersOn m w2 = timersOn m w ++ [⟨w.now + 3000, Task.fade m⟩] := by
  induction messages generalizing w with
  | nil => simp at hmem
  | cons x xs ih =>
    by_cases hx : x = m
    · subst hx
      obtain ⟨w1, h1, h2, h3, h4, _⟩ := fadeOutElement_unmarked x w hun
      have hm : isTruthy (w1.nodes x).fading = true := by rw [h4]; rfl
      obtain ⟨w2, g1, g2, g3⟩ := scanAndFadeMessages_sameFor x xs w1 hm
      refine ⟨w2, ?_, by rw [g2.fading, h4], g3.trans h2, ?_⟩
      · simp only [scanAndFadeMessages, List.foldlM_cons, h1] at g1 ⊢
        exact g1
      · rw [g2.timers]
        simp [timersOn, h3, List.filter_append, Task.target]
    · obtain ⟨w1, h1, h2, h3⟩ := fadeOutElement_other m x w hx
      have hmem1 : m ∈ xs := by
        rcases List.mem_cons.mp hmem with h | h
        · exact absurd h.symm hx
        · exact h
      obtain ⟨w2, g1, g2, g3, g4⟩ := ih w1 (by rw [h2.fading]; exact hun) hmem1
      refine ⟨w2, ?_, g2, g3.trans h3, ?_⟩
      · simp only [scanAndFadeMessages, List.foldlM_cons, h1] at g1 ⊢
        exact g1
      · rw [g4, h2.timers, h3]

theorem waits_map_scan (scans : List (List NodeId)) :
    waits (scans.map PageStep.scan) = 0 := by
  induction scans with
  | nil => rfl
  | cons ms rest ih => rw [List.map_cons, waits_cons, ih]; simp

/-- C7: for a message element not yet marked, the first call of `fadeOutElement` marks it
(`dataset.fading = "true"`) and sets exactly one timer, the fade callback 3000 ms ahead;
every later call on it, after whatever calls, scans and waits, changes nothing; so `n ≥ 1`
calls in a row, or `n ≥ 1` scans in a row that find it, leave exactly that one timer set, and
no call or scan on other elements adds a timer on it. The same holds when the element is
first met by a run of `scanAndFadeMessages` that observes it, wherever in the list of
matches and among whatever other matches: that run marks it and sets exactly one timer on
it, no later call or scan changes anything for it, any number of runs in a row that observe
it leave exactly one timer on it, and so do runs with less than 3000 ms passing in all. -/
theorem fade_scheduled_exactly_once (w : World) (m : NodeId)
    (hun : isTruthy (w.nodes m).fading = false) :
    ∃ w1, fadeOutElement (some m) w = Except.ok w1 ∧
      (w1.nodes m).fading = some "true" ∧
      w1.timers = w.timers ++ [⟨w.now + 3000, Task.fade m⟩] ∧
      (∀ steps : List PageStep,
        fadeOutElement (some m) (performAll steps w1) = Except.ok (performAll steps w1)) ∧
      (∀ n : Nat, 1 ≤ n → performAll (List.replicate n (PageStep.call (some m))) w = w1) ∧
      (∀ n : Nat, 1 ≤ n → performAll (List.replicate n (PageStep.scan [m])) w = w1) ∧
      (∀ steps : List PageStep, waits steps = 0 →
        timersOn m (performAll steps w1) = timersOn m w ++ [⟨w.now + 3000, Task.fade m⟩]) ∧
      (∀ messages : List NodeId, m ∈ messages →
        ∃ w2, scanAndFadeMessages messages w = Except.ok w2 ∧
          (w2.nodes m).fading = some "true" ∧
          timersOn m w2 = timersOn m w ++ [⟨w.now + 3000, Task.fade m⟩] ∧
          (∀ steps : List PageStep,
            fadeOutElement (some m) (performAll steps w2) = Except.ok (performAll steps w2)) ∧
          (∀ (steps : List PageStep) (s : PageStep), s ≠ PageStep.wait →
            SameFor m (performAll steps w2) (s.perform (performAll steps w2)))) ∧
      (∀ scans : List (List NodeId), scans ≠ [] → (∀ ms ∈ scans, m ∈ ms) →
        timersOn m (performAll (scans.map PageStep.scan) w) =
          timersOn m w ++ [⟨w.now + 3000, Task.fade m⟩]) ∧
      (∀ (messages : List NodeId) (steps : List PageStep), m ∈ messages →
        timersOn m w = [] → waits steps < 3000 →
        timersOn m (performAll (PageStep.scan messages :: steps) w) =
          [⟨w.now + 3000, Task.fade m⟩]) := by
  obtain ⟨w1, h1, h2, h3, h4, _⟩ := fadeOutElement_unmarked m w hun
  have hm : isTruthy (w1.nodes m).fading = true := by rw [h4]; rfl
  have hfix : fadeOutElement (some m) w1 = Except.ok w1 := fadeOutElement_marked m w1 hm
  have hcall : (PageStep.call (some m)).perform w = w1 := by
    simp only [PageStep.perform, h1]
  have hcall1 : (PageStep.call (some m)).perform w1 = w1 := by
    simp only [PageStep.perform, hfix]
  have hscan : (PageStep.scan [m]).perform w = w1 := by
    simp [PageStep.perform, scanAndFadeMessages, List.foldlM_cons, h1]
  have hscan1 : (PageStep.scan [m]).perform w1 = w1 := by
    simp [PageStep.perform, scanAndFadeMessages, List.foldlM_cons, hfix]
  refine ⟨w1, h1, by rw [h4], h3, ?_, ?_, ?_, ?_, ?_, ?_, ?_⟩
  · intro steps
    exact fadeOutElement_marked m _ (performAll_marked m steps w1 hm)
  · intro n hn
    obtain ⟨k, rfl⟩ : ∃ k, n = k + 1 := ⟨n - 1, by omega⟩
    rw [List.replicate_succ, performAll_cons, hcall]
    exact performAll_replicate_fixed _ w1 hcall1 k
  · intro n hn
    obtain ⟨k, rfl⟩ : ∃ k, n = k + 1 := ⟨n - 1, by omega⟩
    rw [List.replicate_succ, performAll_cons, hscan]
    exact performAll_replicate_fixed _ w1 hscan1 k
  · intro steps hs
    rw [(performAll_calls_sameFor m steps w1 hm hs).timers]
    simp [timersOn, h3, List.filter_append, Task.target]
  · intro messages hmem
    obtain ⟨w2, g1, g2, _, g4⟩ := scanAndFadeMessages_schedules m messages w hun hmem
    have hm2 : isTruthy (w2.nodes m).fading = true := by rw [g2]; rfl
    refine ⟨w2, g1, g2, g4, ?_, ?_⟩
    · intro steps
      exact fadeOutElement_marked m _ (performAll_marked m steps w2 hm2)
    · intro steps s hs
      exact (perform_sameFor m s _ (performAll_marked m steps w2 hm2) hs).1
  · intro scans hne hall
    obtain ⟨ms, rest, rfl⟩ := List.exists_cons_of_ne_nil hne
    obtain ⟨w2, g1, g2, _, g4⟩ := scanAndFadeMessages_schedules m ms w hun
      (hall ms (List.mem_cons_self ms rest))
    have hm2 : isTruthy (w2.nodes m).fading = true := by rw [g2]; rfl
    have hp : (PageStep.scan ms).perform w = w2 := by simp only [PageStep.perform, g1]
    rw [List.map_cons, performAll_cons, hp,
      (performAll_calls_sameFor m _ w2 hm2 (waits_map_scan rest)).timers, g4]
  · intro messages steps hmem hno hs
    obtain ⟨w2, g1, g2, g3, g4⟩ := scanAndFadeMessages_schedules m messages w hun hmem
    have hm2 : isTruthy (w2.nodes m).fading = true := by rw [g2]; rfl
    have hp : (PageStep.scan messages).perform w = w2 := by simp only [PageStep.perform, g1]
    rw [hno, List.nil_append] at g4
    have hq := (performAll_quiet m steps w2 hm2 (fun t ht => by
      rw [g4] at ht
      simp only [List.mem_singleton] at ht
      subst ht
      show w2.now + waits steps < w.now + 3000
      omega)).1
    rw [performAll_cons, hp, hq.timers, g4]

/-- Witness of C7: scanning the sample page twice in a row over the unmarked element 1
sets one timer, not two, also when the scans find element 2 before it. -/
theorem fade_scheduled_exactly_once_witness :
    ∃ w1, fadeOutElement (some 1) samplePage = Except.ok w1 ∧
      w1.timers = [⟨3000, Task.fade 1⟩] ∧
      performAll [PageStep.scan [1], PageStep.scan [1]] samplePage = w1 ∧
      timersOn 1 (performAll ([[2, 1], [2, 1]].map PageStep.scan) samplePage) =
        [⟨3000, Task.fade 1⟩] := by
  obtain ⟨w1, h1, _, h3, _, _, h6, _, _, h9, _⟩ :=
    fade_scheduled_exactly_once samplePage 1 (by decide)
  exact ⟨w1, h1, by rw [h3]; rfl, h6 2 (by decide),
    h9 [[2, 1], [2, 1]] (by decide) (by decide)⟩

/-- C9: when the removal step fires on an element without a parent it changes nothing and
raises no error; on an element with a parent it takes the element out of the children of that
parent, keeping the other children, and leaves it without a parent; `fadeOutElement` called
with a missing element changes nothing and raises no error; and no timer callback ever
raises an error. -/
theorem removal_step_guarded (w : World) (m : NodeId) :
    ((w.nodes m).parentNode = none → runTask (Task.remove m) w = Except.ok w) ∧
    (∀ p : NodeId, (w.nodes m).parentNode = some p →
      ∃ w1, runTask (Task.remove m) w = Except.ok w1 ∧
        m ∉ (w1.nodes p).children ∧ (w1.nodes m).parentNode = none ∧
        (∀ c : NodeId, c ≠ m → (c ∈ (w1.nodes p).children ↔ c ∈ (w.nodes p).children))) ∧
    fadeOutElement none w = Except.ok w ∧
    (∀ task : Task, ∃ w1, runTask task w = Except.ok w1) := by
  refine ⟨?_, ?_, rfl, ?_⟩
  · intro h
    simp only [runTask, removalStep_eq, h]
  · intro p h
    refine ⟨detach p m w, by simp only [runTask, removalStep_eq, h], ?_, ?_, ?_⟩
    · by_cases hpm : p = m
      · subst hpm; simp [detach]
      · simp [detach, Function.update_noteq hpm]
    · simp [detach]
    · intro c hc
      by_cases hpm : p = m
      · subst hpm; simp [detach, hc]
      · simp [detach, Function.update_noteq hpm, hc]
  · intro task
    cases task with
    | fade msg => exact ⟨_, rfl⟩
    | remove msg => exact ⟨_, removalStep_eq msg w⟩

/-- Witness of C9 on the sample page: element 0 has no parent, element 1 is a child of
element 0. -/
theorem removal_step_guarded_witness :
    runTask (Task.remove 0) samplePage = Except.ok samplePage ∧
    ∃ w1, runTask (Task.remove 1) samplePage = Except.ok w1 ∧ 1 ∉ (w1.nodes 0).children :=
  ⟨(removal_step_guarded samplePage 0).1 rfl,
    ((removal_step_guarded samplePage 1).2.1 0 rfl).imp fun _ h => ⟨h.1, h.2.1⟩⟩

/-- The removal step on `msg`: no parent afterwards, mark and style kept, no timer set. -/
theorem fire_remove_self (d : Nat) (msg : NodeId) (w : World) :
    ((fire w ⟨d, Task.remove msg⟩).nodes msg).parentNode = none ∧
    ((fire w ⟨d, Task.remove msg⟩).nodes msg).fading = (w.nodes msg).fading ∧
    ((fire w ⟨d, Task.remove msg⟩).nodes msg).transition = (w.nodes msg).transition ∧
    ((fire w ⟨d, Task.remove msg⟩).nodes msg).opacity = (w.nodes msg).opacity ∧
    (fire w ⟨d, Task.remove msg⟩).timers = w.timers := by
  rw [fire_remove]
  cases hp : (w.nodes msg).parentNode with
  | none => simp [hp]
  | some parent =>
    by_cases hpm : msg = parent
    · subst hpm; simp [detach]
    · simp [detach, Function.update_noteq hpm]

/-- Running up to and through the millisecond in which the one timer `tm` on `m` is due:
`w1` is the world in which its callback runs, `w2` the world after that millisecond. -/
theorem performAll_until_due (m : NodeId) (tm : Timer) (k : Nat) (steps : List PageStep)
    (w : World) (h : isTruthy (w.nodes m).fading = true) (ht : timersOn m w = [tm])
    (hd : tm.due = w.now + k + 1) (hk : k < waits steps) :
    ∃ s2 w1 w2, performAll steps w = performAll s2 w2 ∧ waits steps = k + 1 + waits s2 ∧
      w2.now = w.now + k + 1 ∧ SameFor m (fire w1 tm) w2 ∧
      w1.now = w.now + k + 1 ∧ (w1.nodes m).parentNode = (w.nodes m).parentNode ∧
      (w1.nodes m).fading = (w.nodes m).fading ∧
      (w1.nodes m).transition = (w.nodes m).transition ∧
      (w1.nodes m).opacity = (w.nodes m).opacity ∧ timersOn m w1 = [] := by
  obtain ⟨s1, s2, hs, hw1, hw⟩ := split_at_wait k steps hk
  have hq := performAll_quiet m s1 w h (fun t ht1 => by
    rw [ht] at ht1
    simp only [List.mem_singleton] at ht1
    subst ht1; rw [hw1, hd]; omega)
  rw [hw1] at hq
  obtain ⟨w1, h1, h2, h3, h4, h5, h6, h7⟩ := tick_single m tm (performAll s1 w)
    (by rw [hq.1.timers]; exact ht) (by rw [hq.2, hd])
  refine ⟨s2, w1, tick (performAll s1 w), ?_, hw, ?_, h7, ?_, ?_, ?_, ?_, ?_, h6⟩
  · rw [hs, performAll_append, performAll_cons]; rfl
  · rw [tick_now, hq.2]
  · rw [h1, hq.2]
  · rw [h2, hq.1.parentNode]
  · rw [h3, hq.1.fading]
  · rw [h4, hq.1.transition]
  · rw [h5, hq.1.opacity]

/-- Running through the millisecond in which the fade callback of `m` is due. -/
theorem performAll_through_fade (m : NodeId) (k : Nat) (steps : List PageStep) (w : World)
    (h : isTruthy (w.nodes m).fading = true)
    (ht : timersOn m w = [⟨w.now + k + 1, Task.fade m⟩]) (hk : k < waits steps) :
    ∃ s2 w2, performAll steps w = performAll s2 w2 ∧ waits steps = k + 1 + waits s2 ∧
      w2.now = w.now + k + 1 ∧ (w2.nodes m).parentNode = (w.nodes m).parentNode ∧
      (w2.nodes m).fading = (w.nodes m).fading ∧
      (w2.nodes m).transition = "opacity 0.5s ease" ∧ (w2.nodes m).opacity = "0" ∧
      timersOn m w2 = [⟨w.now + k + 1 + 500, Task.remove m⟩] := by
  obtain ⟨s2, w1, w2, h1, h2, h3, h4, h5, h6, h7, _, _, h10⟩ :=
    performAll_until_due m _ k steps w h ht rfl hk
  obtain ⟨_, f2, f3, f4, f5, f6⟩ := fire_fade (w.now + k + 1) m w1
  refine ⟨s2, w2, h1, h2, h3, ?_, ?_, ?_, ?_, ?_⟩
  · rw [h4.parentNode, f5, h6]
  · rw [h4.fading, f6, h7]
  · rw [h4.transition, f3]
  · rw [h4.opacity, f4]
  · rw [h4.timers]
    have h10a : w1.timers.filter (fun t => t.task.target = m) = [] := h10
    rw [timersOn, f2, List.filter_append, h10a, h5]
    simp [Task.target]

/-- Running through the millisecond in which the removal callback of `m` is due. -/
theorem performAll_through_remove (m : NodeId) (k : Nat) (steps : List PageStep) (w : World)
    (h : isTruthy (w.nodes m).fading = true)
    (ht : timersOn m w = [⟨w.now + k + 1, Task.remove m⟩]) (hk : k < waits steps) :
    ∃ s2 w2, performAll steps w = performAll s2 w2 ∧ waits steps = k + 1 + waits s2 ∧
      w2.now = w.now + k + 1 ∧ (w2.nodes m).parentNode = none ∧
      (w2.nodes m).fading = (w.nodes m).fading ∧
      (w2.nodes m).transition = (w.nodes m).transition ∧
      (w2.nodes m).opacity = (w.nodes m).opacity ∧ timersOn m w2 = [] := by
  obtain ⟨s2, w1, w2, h1, h2, h3, h4, _, _, h7, h8, h9, h10⟩ :=
    performAll_until_due m _ k steps w h ht rfl hk
  obtain ⟨f1, f2, f3, f4, f5⟩ := fire_remove_self (w.now + k + 1) m w1
  refine ⟨s2, w2, h1, h2, h3, ?_, ?_, ?_, ?_, ?_⟩
  · rw [h4.parentNode, f1]
  · rw [h4.fading, f2, h7]
  · rw [h4.transition, f3, h8]
  · rw [h4.opacity, f4, h9]
  · rw [h4.timers, timersOn, f5]; exact h10

theorem fadeOutElement_now (msg : Option NodeId) (w : World) :
    ∃ w1, fadeOutElement msg w = Except.ok w1 ∧ w1.now = w.now := by
  cases msg with
  | none => exact ⟨w, rfl, rfl⟩
  | some x =>
    by_cases hx : isTruthy (w.nodes x).fading = true
    · exact ⟨w, fadeOutElement_marked x w hx, rfl⟩
    · obtain ⟨w1, h1, h2, _⟩ := fadeOutElement_unmarked x w (by simpa using hx)
      exact ⟨w1, h1, h2⟩

theorem scanAndFadeMessages_now (messages : List NodeId) (w : World) :
    ∃ w1, scanAndFadeMessages messages w = Except.ok w1 ∧ w1.now = w.now := by
  induction messages generalizing w with
  | nil => exact ⟨w, rfl, rfl⟩
  | cons x xs ih =>
    obtain ⟨w1, h1, h2⟩ := fadeOutElement_now (some x) w
    obtain ⟨w2, h3, h4⟩ := ih w1
    refine ⟨w2, ?_, h4.trans h2⟩
    simp only [scanAndFadeMessages, List.foldlM_cons, h1] at h3 ⊢
    exact h3

/-- The clock moves with the waits and with nothing else. -/
theorem performAll_now (steps : List PageStep) (w : World) :
    (performAll steps w).now = w.now + waits steps := by
  induction steps generalizing w with
  | nil => simp [performAll, waits]
  | cons s ss ih =>
    rw [performAll_cons, ih, waits_cons]
    cases s with
    | call msg =>
      obtain ⟨w1, h1, h2⟩ := fadeOutElement_now msg w
      simp [PageStep.perform, h1, h2]
    | scan messages =>
      obtain ⟨w1, h1, h2⟩ := scanAndFadeMessages_now messages w
      simp [PageStep.perform, h1, h2]
    | wait =>
      simp only [PageStep.perform, tick_now, if_true]; omega

theorem fire_timers_mem (w : World) (t t1 : Timer) (h : t1 ∈ (fire w t).timers) :
    t1 ∈ w.timers ∨ t1.task.target = t.task.target := by
  obtain ⟨d, task⟩ := t
  cases task with
  | fade msg =>
    rw [(fire_fade d msg w).2.1] at h
    simp only [List.mem_append, List.mem_singleton] at h
    rcases h with h | h
    · exact Or.inl h
    · subst h; exact Or.inr rfl
  | remove msg =>
    rw [(fire_remove_self d msg w).2.2.2.2] at h
    exact Or.inl h

theorem foldl_fire_timersMarked (ds : List Timer) (w : World) (h : timersMarked w)
    (hd : ∀ t ∈ ds, isTruthy (w.nodes t.task.target).fading = true) :
    timersMarked (ds.foldl fire w) := by
  induction ds generalizing w with
  | nil => exact h
  | cons t ts ih =>
    rw [List.foldl_cons]
    apply ih
    · intro t1 ht1
      rw [fire_fading]
      rcases fire_timers_mem w t t1 ht1 with h1 | h1
      · exact h t1 h1
      · rw [h1]; exact hd t (List.mem_cons_self t ts)
    · intro t1 ht1
      rw [fire_fading]
      exact hd t1 (List.mem_cons_of_mem t ht1)

theorem tick_timersMarked (w : World) (h : timersMarked w) : timersMarked (tick w) := by
  apply foldl_fire_timersMarked
  · intro t ht
    simp only [startTick, List.mem_filter] at ht
    exact h t ht.1
  · intro t ht
    simp only [dueTimers, List.mem_filter] at ht
    exact h t ht.1

theorem fadeOutElement_timersMarked (msg : Option NodeId) (w : World) (h : timersMarked w) :
    ∃ w1, fadeOutElement msg w = Except.ok w1 ∧ timersMarked w1 := by
  cases msg with
  | none => exact ⟨w, rfl, h⟩
  | some x =>
    by_cases hx : isTruthy (w.nodes x).fading = true
    · exact ⟨w, fadeOutElement_marked x w hx, h⟩
    · obtain ⟨w1, h1, _, h3, h4, h5⟩ := fadeOutElement_unmarked x w (by simpa using hx)
      have hx1 : isTruthy (w1.nodes x).fading = true := by rw [h4]; rfl
      refine ⟨w1, h1, ?_⟩
      intro t ht
      by_cases htx : t.task.target = x
      · rw [htx]; exact hx1
      · rw [h5 _ htx]
        rw [h3] at ht
        simp only [List.mem_append, List.mem_singleton] at ht
        rcases ht with ht | ht
        · exact h t ht
        · subst ht; exact absurd rfl htx

theorem scanAndFadeMessages_timersMarked (messages : List NodeId) (w : World)
    (h : timersMarked w) :
    ∃ w1, scanAndFadeMessages messages w = Except.ok w1 ∧ timersMarked w1 := by
  induction messages generalizing w with
  | nil => exact ⟨w, rfl, h⟩
  | cons x xs ih =>
    obtain ⟨w1, h1, h2⟩ := fadeOutElement_timersMarked (some x) w h
    obtain ⟨w2, h3, h4⟩ := ih w1 h2
    refine ⟨w2, ?_, h4⟩
    simp only [scanAndFadeMessages, List.foldlM_cons, h1] at h3 ⊢
    exact h3

/-- On a page that started with no timer pending, whatever calls, scans and waits
followed, no timer is pending on an unmarked element: the timers are set by
`fadeOutElement` and its callbacks alone, after the mark. -/
theorem no_timer_on_unmarked (w0 : World) (steps : List PageStep) (m : NodeId)
    (h0 : w0.timers = [])
    (hun : isTruthy ((performAll steps w0).nodes m).fading = false) :
    timersOn m (performAll steps w0) = [] := by
  have hinv : ∀ (steps : List PageStep) (w : World), timersMarked w →
      timersMarked (performAll steps w) := by
    intro steps
    induction steps with
    | nil => exact fun w h => h
    | cons s ss ih =>
      intro w h
      rw [performAll_cons]
      apply ih
      cases s with
      | call msg =>
        obtain ⟨w1, h1, h2⟩ := fadeOutElement_timersMarked msg w h
        simp only [PageStep.perform, h1]; exact h2
      | scan messages =>
        obtain ⟨w1, h1, h2⟩ := scanAndFadeMessages_timersMarked messages w h
        simp only [PageStep.perform, h1]; exact h2
      | wait => exact tick_timersMarked w h
  have h1 := hinv steps w0 (fun t ht => by rw [h0] at ht; simp at ht)
  rw [timersOn, List.filter_eq_nil_iff]
  intro t ht htm
  have h2 := h1 t ht
  simp only [decide_eq_true_eq] at htm
  rw [htm, hun] at h2
  exact Bool.noConfusion h2

theorem waits_replicate_wait (n : Nat) : waits (List.replicate n PageStep.wait) = n := by
  unfold waits
  exact List.count_replicate_self _ _

/-- C8: for an unmarked message element `m` with no timer pending on it, first passed to
`fadeOutElement` at time `t`, and whatever calls and scans happen as the milliseconds pass:
before `t + 3000` its opacity, transition and parent are as they were and the fade callback
is pending for `t + 3000`; from `t + 3000` on the opacity is "0" with the transition
"opacity 0.5s ease", and until `t + 3500` the parent is still as it was and the removal is
pending for `t + 3500`; from `t + 3500` on the element has no parent and no timer is
pending on it. -/
theorem fade_at_3000_removal_at_3500 (w : World) (m : NodeId)
    (hun : isTruthy (w.nodes m).fading = false) (hno : timersOn m w = []) :
    ∃ w1, fadeOutElement (some m) w = Except.ok w1 ∧
      (∀ steps : List PageStep, (performAll steps w1).now = w.now + waits steps) ∧
      (∀ steps : List PageStep, waits steps < 3000 →
        ((performAll steps w1).nodes m).opacity = (w.nodes m).opacity ∧
        ((performAll steps w1).nodes m).transition = (w.nodes m).transition ∧
        ((performAll steps w1).nodes m).parentNode = (w.nodes m).parentNode ∧
        timersOn m (performAll steps w1) = [⟨w.now + 3000, Task.fade m⟩]) ∧
      (∀ steps : List PageStep, 3000 ≤ waits steps → waits steps < 3500 →
        ((performAll steps w1).nodes m).opacity = "0" ∧
        ((performAll steps w1).nodes m).transition = "opacity 0.5s ease" ∧
        ((performAll steps w1).nodes m).parentNode = (w.nodes m).parentNode ∧
        timersOn m (performAll steps w1) = [⟨w.now + 3500, Task.remove m⟩]) ∧
      (∀ steps : List PageStep, 3500 ≤ waits steps →
        ((performAll steps w1).nodes m).opacity = "0" ∧
        ((performAll steps w1).nodes m).transition = "opacity 0.5s ease" ∧
        ((performAll steps w1).nodes m).parentNode = none ∧
        timersOn m (performAll steps w1) = []) := by
  obtain ⟨w1, h1, h2, h3, h4, _⟩ := fadeOutElement_unmarked m w hun
  have hm : isTruthy (w1.nodes m).fading = true := by rw [h4]; rfl
  have ht : timersOn m w1 = [⟨w1.now + 2999 + 1, Task.fade m⟩] := by
    have hno1 : w.timers.filter (fun t => t.task.target = m) = [] := hno
    rw [timersOn, h3, List.filter_append, hno1, h2]
    simp [Task.target]
  have hp : (w1.nodes m).parentNode = (w.nodes m).parentNode := by rw [h4]
  have ho : (w1.nodes m).opacity = (w.nodes m).opacity := by rw [h4]
  have htr : (w1.nodes m).transition = (w.nodes m).transition := by rw [h4]
  refine ⟨w1, h1, ?_, ?_, ?_, ?_⟩
  · intro steps
    rw [performAll_now, h2]
  · intro steps hs
    have hq := (performAll_quiet m steps w1 hm (fun t ht1 => by
      rw [ht] at ht1
      simp only [List.mem_singleton] at ht1
      subst ht1
      show w1.now + waits steps < w1.now + 2999 + 1
      omega)).1
    refine ⟨hq.opacity.trans ho, hq.transition.trans htr, hq.parentNode.trans hp, ?_⟩
    rw [hq.timers, ht, h2]
  · intro steps hs1 hs2
    obtain ⟨s2, w2, e1, e2, e3, e4, e5, e6, e7, e8⟩ :=
      performAll_through_fade m 2999 steps w1 hm ht (by omega)
    have hm2 : isTruthy (w2.nodes m).fading = true := by rw [e5]; exact hm
    have hq := (performAll_quiet m s2 w2 hm2 (fun t ht1 => by
      rw [e8] at ht1
      simp only [List.mem_singleton] at ht1
      subst ht1
      show w2.now + waits s2 < w1.now + 2999 + 1 + 500
      omega)).1
    rw [e1]
    refine ⟨hq.opacity.trans e7, hq.transition.trans e6,
      hq.parentNode.trans (e4.trans hp), ?_⟩
    rw [hq.timers, e8, h2]
  · intro steps hs
    obtain ⟨s2, w2, e1, e2, e3, e4, e5, e6, e7, e8⟩ :=
      performAll_through_fade m 2999 steps w1 hm ht (by omega)
    have hm2 : isTruthy (w2.nodes m).fading = true := by rw [e5]; exact hm
    have e8a : timersOn m w2 = [⟨w2.now + 499 + 1, Task.remove m⟩] := by
      rw [e8, e3]
    obtain ⟨s3, w3, g1, g2, g3, g4, g5, g6, g7, g8⟩ :=
      performAll_through_remove m 499 s2 w2 hm2 e8a (by omega)
    have hm3 : isTruthy (w3.nodes m).fading = true := by rw [g5]; exact hm2
    have hq := (performAll_quiet m s3 w3 hm3 (fun t ht1 => by
      rw [g8] at ht1
      simp at ht1)).1
    rw [e1, g1]
    refine ⟨hq.opacity.trans (g7.trans e7), hq.transition.trans (g6.trans e6),
      hq.parentNode.trans g4, ?_⟩
    rw [hq.timers, g8]

/-- Witness of C8 on the sample page: element 1, 3000 and 3500 ms after its first call. -/
theorem fade_at_3000_removal_at_3500_witness :
    ∃ w1, fadeOutElement (some 1) samplePage = Except.ok w1 ∧
      ((performAll (List.replicate 3000 PageStep.wait) w1).nodes 1).opacity = "0" ∧
      ((performAll (List.replicate 3000 PageStep.wait) w1).nodes 1).parentNode = some 0 ∧
      ((performAll (List.replicate 3500 PageStep.wait) w1).nodes 1).parentNode = none := by
  obtain ⟨w1, h1, _, _, h4, h5⟩ :=
    fade_at_3000_removal_at_3500 samplePage 1 (by decide) (by decide)
  have e1 := waits_replicate_wait 3000
  have e2 := waits_replicate_wait 3500
  have a := h4 (List.replicate 3000 PageStep.wait) (by omega) (by omega)
  have b := h5 (List.replicate 3500 PageStep.wait) (by omega)
  exact ⟨w1, h1, a.1, a.2.2.1, b.2.2.1⟩

end Almoviland
